import Mathlib

/-!
# Infix calculator: tokenizer, shunting-yard converter and postfix evaluator

A shallow embedding of `ideone_AvSbSo.cpp`.

* A C++ `string` is a Lean `String`; a `char` is a Lean `Char`.  The character
  classes are those of the "C" locale, which are false outside ASCII.
* A `std::map` is an association list; `operator[]` returns the value and the
  table, because it inserts a zero entry for a key that is absent.
* An exception is a value of `Err`; a function that can throw returns `Except`.
* `double` arithmetic is a parameter (`DoubleOps`): every result about the
  shape of a computation holds for any reading of the floating point
  operations.  `exactOps` is one such reading, on integers.
-/

namespace Calc

/-! ## Exceptions -/

/-- Exceptions that leave `shuntingYard` and `calculation`. -/
inductive Err where
  /-- `runtime_error("Mismatched parentheses")` -/
  | mismatchedParentheses
  /-- `runtime_error("Invalid expression")` -/
  | invalidExpression
  /-- `runtime_error("Division by zero")` -/
  | divisionByZero
  /-- `runtime_error("Unknown token: " + token)` -/
  | unknownToken (token : String)
  /-- `std::out_of_range` thrown by `map::at` -/
  | mapAt
  /-- `std::invalid_argument` or `std::out_of_range` thrown by `std::stod` -/
  | stodFailed
  deriving DecidableEq, Repr

-- Equality of results is decidable.
deriving instance DecidableEq for Except

/-- The text of `e.what()` as `Solve` prints it. -/
def Err.what : Err → String
  | .mismatchedParentheses => "Mismatched parentheses"
  | .invalidExpression => "Invalid expression"
  | .divisionByZero => "Division by zero"
  | .unknownToken token => "Unknown token: " ++ token
  | .mapAt => "map::at"
  | .stodFailed => "stod"

/-! ## Lexical tables -/

/-- A `std::map<string, int>` as an association list (the order of the entries
carries no meaning; a new entry is added at the end). -/
abbrev Table := List (String × Int)

/-- The global `precedence` as it is initialised. -/
def precedence : Table :=
  [("+", 1), ("-", 1), ("*", 2), ("/", 2), ("#", 3), ("**", 4)]

/-- The global `rightAssociative`. -/
def rightAssociative : List (String × Bool) :=
  [("+", false), ("-", false), ("*", false), ("/", false), ("#", true), ("**", true)]

/-- `m.count(key)` as a truth value. -/
def mapCount (m : Table) (key : String) : Bool :=
  (m.lookup key).isSome

/-- `m[key]`: the value under `key` and the table afterwards; an absent key is
inserted with the value `0`. -/
def mapIndex (m : Table) (key : String) : Int × Table :=
  match m.lookup key with
  | some v => (v, m)
  | none => (0, m ++ [(key, 0)])

/-- `m.at(key)`: `none` stands for `std::out_of_range`. -/
def mapAt (m : List (String × Bool)) (key : String) : Option Bool :=
  m.lookup key

/-! ## Character classes and helper functions -/

/-- `isspace` in the "C" locale. -/
def isspace (c : Char) : Bool :=
  c == ' ' || c == '\t' || c == '\n' || c == '\x0b' || c == '\x0c' || c == '\r'

/-- `isdigit`. -/
def isdigit (c : Char) : Bool :=
  '0' ≤ c && c ≤ '9'

/-- `isalpha` in the "C" locale. -/
def isalpha (c : Char) : Bool :=
  ('a' ≤ c && c ≤ 'z') || ('A' ≤ c && c ≤ 'Z')

/-- `isFunction`: the hard-coded function names. -/
def isFunction (token : String) : Bool :=
  token == "ln" || token == "exp" || token == "sin" ||
  token == "cos" || token == "tan" || token == "sqrt" ||
  token == "arcsin" || token == "arccos" || token == "arctan" ||
  token == "sinh" || token == "cosh" || token == "tanh"

/-- `isOperator`: the token is a key of the `precedence` table. -/
def isOperator (prec : Table) (token : String) : Bool :=
  mapCount prec token

/-- `isNumber`: `token[0]` is a digit, or a `.` in a token longer than one
character (`token[0]` of the empty string is the terminating NUL). -/
def isNumber (token : String) : Bool :=
  let c0 := token.data.headD '\x00'
  isdigit c0 || (c0 == '.' && decide (token.data.length > 1))

/-- `isConstant`. -/
def isConstant (token : String) : Bool :=
  token == "pi" || token == "e"

/-! ## Step 1: tokenizer -/

/-- The condition of the inner loop that reads a number: a digit or a `.`. -/
def numberChar (c : Char) : Bool :=
  isdigit c || c == '.'

/-- `i + 1 < expression.length() && isdigit(expression[i+1])` for the rest of
the input after position `i`. -/
def nextIsDigit (rest : List Char) : Bool :=
  match rest with
  | [] => false
  | d :: _ => isdigit d

/-- `i + 1 < expression.length() && expression[i + 1] == '*'` for the rest of
the input after position `i`. -/
def nextIsStar (rest : List Char) : Bool :=
  match rest with
  | [] => false
  | d :: _ => d == '*'

/-- The `for` loop of `tokenize` on the part of the input from position `i` on.
Every iteration consumes at least one character (two for `**`, where `i++`
skips the second), so a fuel equal to the number of characters left is enough. -/
def tokenizeLoop : Nat → List Char → Bool → List String
  | 0, _, _ => []
  | _ + 1, [], _ => []
  | fuel + 1, c :: rest, checkUnaryMinus =>
    if isspace c then tokenizeLoop fuel rest checkUnaryMinus
    else if isdigit c || (c == '.' && nextIsDigit rest) then
      String.mk (c :: rest.takeWhile numberChar) ::
        tokenizeLoop fuel (rest.dropWhile numberChar) false
    else if isalpha c then
      String.mk (c :: rest.takeWhile isalpha) ::
        tokenizeLoop fuel (rest.dropWhile isalpha) false
    else if c == '(' then "(" :: tokenizeLoop fuel rest true
    else if c == ')' then ")" :: tokenizeLoop fuel rest false
    else if c == '*' then
      if nextIsStar rest then "**" :: tokenizeLoop fuel rest.tail true
      else "*" :: tokenizeLoop fuel rest true
    else if c == '-' then
      (if checkUnaryMinus then "#" else "-") :: tokenizeLoop fuel rest true
    else String.mk [c] :: tokenizeLoop fuel rest true

/-- `tokenize`. -/
def tokenize (expression : String) : List String :=
  tokenizeLoop expression.data.length expression.data true

/-! ## Step 2: shunting-yard -/

/-- The `while` loop of rule 3: pops operators of higher precedence (or of equal
precedence when `token` is left-associative) from the stack to the output.
Returns the stack and the output, and the `precedence` table after the
`operator[]` lookups. -/
def popOperators (token : String) :
    Table → List String → List String → Except Err (List String × List String) × Table
  | prec, [], outputQueue => (.ok ([], outputQueue), prec)
  | prec, top :: operatorStack, outputQueue =>
    if top == "(" then (.ok (top :: operatorStack, outputQueue), prec)
    else
      let r1 := mapIndex prec top
      let r2 := mapIndex r1.2 token
      if r1.1 > r2.1 then popOperators token r2.2 operatorStack (outputQueue ++ [top])
      else if r1.1 == r2.1 then
        match mapAt rightAssociative token with
        | none => (.error .mapAt, r2.2)
        | some ra =>
          if !ra then popOperators token r2.2 operatorStack (outputQueue ++ [top])
          else (.ok (top :: operatorStack, outputQueue), r2.2)
      else (.ok (top :: operatorStack, outputQueue), r2.2)

/-- The `while` loop of rule 5: pops to the output until a `(` is on top, and
discards it; `none` when the stack runs empty first. -/
def popToParen : List String → List String → Option (List String × List String)
  | [], _ => none
  | top :: operatorStack, outputQueue =>
    if top == "(" then some (operatorStack, outputQueue)
    else popToParen operatorStack (outputQueue ++ [top])

/-- The `for` loop of `shuntingYard`: returns the output queue and the operator
stack, and the `precedence` table as the loop leaves it. -/
def shuntingYardLoop :
    List String → Table → List String → List String →
      Except Err (List String × List String) × Table
  | [], prec, outputQueue, operatorStack => (.ok (outputQueue, operatorStack), prec)
  | token :: tokens, prec, outputQueue, operatorStack =>
    if isNumber token || isConstant token then
      shuntingYardLoop tokens prec (outputQueue ++ [token]) operatorStack
    else if isFunction token then
      shuntingYardLoop tokens prec outputQueue (token :: operatorStack)
    else if isOperator prec token then
      match popOperators token prec operatorStack outputQueue with
      | (.error err, prec2) => (.error err, prec2)
      | (.ok (operatorStack2, outputQueue2), prec2) =>
        shuntingYardLoop tokens prec2 outputQueue2 (token :: operatorStack2)
    else if token == "(" then
      shuntingYardLoop tokens prec outputQueue (token :: operatorStack)
    else if token == ")" then
      match popToParen operatorStack outputQueue with
      | none => (.error .mismatchedParentheses, prec)
      | some ([], outputQueue2) => shuntingYardLoop tokens prec outputQueue2 []
      | some (top :: operatorStack2, outputQueue2) =>
        if isFunction top then
          shuntingYardLoop tokens prec (outputQueue2 ++ [top]) operatorStack2
        else shuntingYardLoop tokens prec outputQueue2 (top :: operatorStack2)
    else shuntingYardLoop tokens prec outputQueue operatorStack

/-- The final `while` loop of `shuntingYard`: moves the rest of the stack to the
output and throws at a `(`. -/
def drainStack : List String → List String → Except Err (List String)
  | [], outputQueue => .ok outputQueue
  | top :: operatorStack, outputQueue =>
    if top == "(" then .error .mismatchedParentheses
    else drainStack operatorStack (outputQueue ++ [top])

/-- `shuntingYard`, started with the `precedence` table `prec`: the postfix
sequence or the exception, and the `precedence` table afterwards. -/
def shuntingYard (prec : Table) (tokens : List String) : Except Err (List String) × Table :=
  match shuntingYardLoop tokens prec [] [] with
  | (.error err, prec2) => (.error err, prec2)
  | (.ok (outputQueue, operatorStack), prec2) => (drainStack operatorStack outputQueue, prec2)

/-! ## Step 3: postfix evaluation -/

/-- The operations on `double` that `calculation` uses. -/
structure DoubleOps (V : Type) where
  /-- `std::stod`; `none` when it throws -/
  stod : String → Option V
  /-- the constant `pi` -/
  pi : V
  /-- the constant `e` -/
  e : V
  /-- `log` -/
  log : V → V
  /-- `exp` -/
  exp : V → V
  /-- `sin` -/
  sin : V → V
  /-- `tanh` -/
  tanh : V → V
  /-- unary `-` -/
  neg : V → V
  /-- `+` -/
  add : V → V → V
  /-- binary `-` -/
  sub : V → V → V
  /-- `*` -/
  mul : V → V → V
  /-- `/` -/
  div : V → V → V
  /-- `pow` -/
  pow : V → V → V
  /-- `val == 0` -/
  isZero : V → Bool

/-- The body of the `for` loop of `calculation`: the value stack after one token,
or the exception that the token raises. -/
def calculationStep {V : Type} (D : DoubleOps V) (prec : Table) (token : String)
    (valueStack : List V) : Except Err (List V) :=
  if isNumber token then
    match D.stod token with
    | none => .error .stodFailed
    | some v => .ok (v :: valueStack)
  else if token == "pi" then .ok (D.pi :: valueStack)
  else if token == "e" then .ok (D.e :: valueStack)
  else if isFunction token then
    match valueStack with
    | [] => .error .invalidExpression
    | val :: valueStack2 =>
      if token == "ln" then .ok (D.log val :: valueStack2)
      else if token == "exp" then .ok (D.exp val :: valueStack2)
      else if token == "sin" then .ok (D.sin val :: valueStack2)
      else if token == "tanh" then .ok (D.tanh val :: valueStack2)
      else .ok valueStack2
  else if isOperator prec token then
    if token == "#" then
      match valueStack with
      | [] => .error .invalidExpression
      | val :: valueStack2 => .ok (D.neg val :: valueStack2)
    else
      match valueStack with
      | val2 :: val1 :: valueStack2 =>
        if token == "+" then .ok (D.add val1 val2 :: valueStack2)
        else if token == "-" then .ok (D.sub val1 val2 :: valueStack2)
        else if token == "*" then .ok (D.mul val1 val2 :: valueStack2)
        else if token == "/" then
          if D.isZero val2 then .error .divisionByZero
          else .ok (D.div val1 val2 :: valueStack2)
        else if token == "**" then .ok (D.pow val1 val2 :: valueStack2)
        else .ok valueStack2
      | _ => .error .invalidExpression
  else .error (.unknownToken token)

/-- The `for` loop of `calculation`: the value stack after the tokens; an
exception ends the loop. -/
def calculationLoop {V : Type} (D : DoubleOps V) (prec : Table) :
    List String → List V → Except Err (List V)
  | [], valueStack => .ok valueStack
  | token :: rpnTokens, valueStack =>
    match calculationStep D prec token valueStack with
    | .error err => .error err
    | .ok valueStack2 => calculationLoop D prec rpnTokens valueStack2

/-- `calculation`: the loop, then the check that exactly one value is left. -/
def calculation {V : Type} (D : DoubleOps V) (prec : Table) (rpnTokens : List String) :
    Except Err V :=
  match calculationLoop D prec rpnTokens [] with
  | .error err => .error err
  | .ok [v] => .ok v
  | .ok _ => .error .invalidExpression

/-- The `try` block of `Solve` without its input and output: tokenize, convert,
calculate.  Returns the number or the exception that is caught, and the
`precedence` table afterwards. -/
def Solve {V : Type} (D : DoubleOps V) (prec : Table) (expression : String) :
    Except Err V × Table :=
  match shuntingYard prec (tokenize expression) with
  | (.error err, prec2) => (.error err, prec2)
  | (.ok rpn, prec2) => (calculation D prec2 rpn, prec2)

/-! ## An exact reading of the arithmetic -/

/-- A value of the exact reading: an integer of magnitude at most `2^53`, which
a `double` holds without rounding (`int 0` stands for either signed zero), or
`other`, any `double` that this reading does not determine. -/
inductive Exact where
  | int (n : Int)
  | other
  deriving DecidableEq, Repr

/-- An integer result, kept when a `double` holds it exactly. -/
def Exact.ofInt (n : Int) : Exact :=
  if n.natAbs ≤ 2 ^ 53 then .int n else .other

/-- The decimal value of a list of digits. -/
def digitsValue (ds : List Char) : Nat :=
  ds.foldl (fun acc d => 10 * acc + (d.toNat - '0'.toNat)) 0

/-- The least integer that rounds to infinity as a `double`: `2^1024 - 2^970`,
half a unit in the last place above the largest finite `double`. -/
def overflowBound : Nat :=
  179769313486231580793728971405303415079934132710037826936173778980444968292764750946649017977587207096330286416692887910946555547851940402630657488671505820681908902000708383676273854845817711531764475730270069855571366959622842914819860834936475292719074168444365510704342711559699508093042880177904174497792

/-- `std::stod` in the exact reading: a token of digits only has its decimal
value, and `std::stod` throws `std::out_of_range` when that value rounds to
infinity; any other token that starts with a digit, or with a `.` and a digit,
is converted to a value this reading does not determine (it does not follow the
range errors of such tokens); for every other token no conversion can be
performed and `std::stod` throws. -/
def stodExact (token : String) : Option Exact :=
  match token.data with
  | [] => none
  | c :: rest =>
    if isdigit c then
      if rest.all isdigit then
        if digitsValue (c :: rest) < overflowBound then
          some (Exact.ofInt (digitsValue (c :: rest)))
        else none
      else some .other
    else if c == '.' && nextIsDigit rest then some .other
    else none

/-- The exact reading of the `double` operations: a result is an integer only
where IEEE arithmetic gives exactly that integer. -/
def exactOps : DoubleOps Exact where
  stod := stodExact
  pi := .other
  e := .other
  log := fun v => if v = .int 1 then .int 0 else .other
  exp := fun v => if v = .int 0 then .int 1 else .other
  sin := fun v => if v = .int 0 then .int 0 else .other
  tanh := fun v => if v = .int 0 then .int 0 else .other
  neg := fun v => match v with
    | .int a => .int (-a)
    | .other => .other
  add := fun v w => match v, w with
    | .int a, .int b => Exact.ofInt (a + b)
    | _, _ => .other
  sub := fun v w => match v, w with
    | .int a, .int b => Exact.ofInt (a - b)
    | _, _ => .other
  mul := fun v w => match v, w with
    | .int a, .int b => Exact.ofInt (a * b)
    | _, _ => .other
  div := fun v w => match v, w with
    | .int a, .int b => if b ≠ 0 ∧ a % b = 0 then .int (a / b) else .other
    | _, _ => .other
  pow := fun v w => match v, w with
    | .int a, .int b => if 0 ≤ b then Exact.ofInt (a ^ b.toNat) else .other
    | _, _ => .other
  isZero := fun v => decide (v = .int 0)

/-! ## The `precedence` table during a run, and the converter without it -/

/-- The `precedence` tables the program can hold: the initial table, followed by
entries `(f, 0)` for function names `f`, which `operator[]` has inserted. -/
def tableOK (prec : Table) : Bool :=
  prec.take 6 == precedence && (prec.drop 6).all (fun kv => isFunction kv.1 && kv.2 == 0)

/-- The tokens that the converter puts on its operator stack. -/
def stackToken (t : String) : Bool :=
  t == "(" || isFunction t || isOperator precedence t

/-- The rank `precedence[t]` reads for a stack token. -/
def rank (t : String) : Int :=
  (precedence.lookup t).getD 0

/-- The condition of the `while` loop of rule 3, for `top` on the stack and an
operator `token` (for which `rightAssociative.at` has a value). -/
def popsBefore (token top : String) : Bool :=
  top != "(" && (rank top > rank token ||
    (rank top == rank token && !(rightAssociative.lookup token).getD true))

/-- The `for` loop of `shuntingYard` as a function of the tokens alone: rule 3
written with `popsBefore`, which reads the initial table. -/
def convertLoop :
    List String → List String → List String → Except Err (List String × List String)
  | [], out, st => .ok (out, st)
  | token :: tokens, out, st =>
    if isNumber token || isConstant token then convertLoop tokens (out ++ [token]) st
    else if isFunction token then convertLoop tokens out (token :: st)
    else if isOperator precedence token then
      convertLoop tokens (out ++ st.takeWhile (popsBefore token))
        (token :: st.dropWhile (popsBefore token))
    else if token == "(" then convertLoop tokens out (token :: st)
    else if token == ")" then
      match popToParen st out with
      | none => .error .mismatchedParentheses
      | some ([], out2) => convertLoop tokens out2 []
      | some (top :: st2, out2) =>
        if isFunction top then convertLoop tokens (out2 ++ [top]) st2
        else convertLoop tokens out2 (top :: st2)
    else convertLoop tokens out st

/-- The converter as a function of the tokens alone. -/
def convert (tokens : List String) : Except Err (List String) :=
  match convertLoop tokens [] [] with
  | .error err => .error err
  | .ok (out, st) => drainStack st out

/-- The pipeline as a function of the expression alone. -/
def evaluate {V : Type} (D : DoubleOps V) (expression : String) : Except Err V :=
  match convert (tokenize expression) with
  | .error err => .error err
  | .ok rpn => calculation D precedence rpn

/-! ## The tokenizer without fuel -/

/-- The tokens of the input from some position on: `tokenizeLoop` with the fuel
that the rest of the input needs. -/
def tokensFrom (s : List Char) (checkUnaryMinus : Bool) : List String :=
  tokenizeLoop s.length s checkUnaryMinus

/-- A number literal of the tokenizer: a digit, or a `.` before a digit,
followed by digits and `.` characters. -/
def isNumberLiteral (a : String) : Bool :=
  match a.data with
  | [] => false
  | c :: rest => (isdigit c || (c == '.' && nextIsDigit rest)) && rest.all numberChar

/-! ## Predicates of the properties -/

/-- Two characters that the tokenizer reads into one token when they are
adjacent: two characters of a number, two letters, or the two halves of `**`. -/
def glues (x y : Char) : Bool :=
  (numberChar x && numberChar y) || (isalpha x && isalpha y) || (x == '*' && y == '*')

/-- Whitespace stands between `prev`, the last character before `c` that is no
whitespace, and `c`, and the two glue. -/
def gluesAcrossGap (prev : Option Char) (gap : Bool) (c : Char) : Bool :=
  match prev with
  | some x => gap && glues x c
  | none => false

/-- No whitespace of the input stands between two characters that glue.  `prev`
is the last character before the input that is no whitespace, and `gap` tells
whether whitespace has been passed since. -/
def spaceSafeFrom : Option Char → Bool → List Char → Bool
  | _, _, [] => true
  | prev, gap, c :: rest =>
    if isspace c then spaceSafeFrom prev true rest
    else !gluesAcrossGap prev gap c && spaceSafeFrom (some c) false rest

/-- No whitespace of the expression stands between two characters that glue. -/
def spaceSafe (s : List Char) : Bool :=
  spaceSafeFrom none false s

/-- The expression with all whitespace characters removed. -/
def removeSpaces (s : List Char) : List Char :=
  s.filter (fun c => !isspace c)

/-- The parentheses of a token sequence are balanced, when `depth` parentheses
are open before it: no `)` comes without an open `(`, and none stays open. -/
def balancedFrom : Nat → List String → Bool
  | depth, [] => depth == 0
  | depth, t :: ts =>
    if t == "(" then balancedFrom (depth + 1) ts
    else if t == ")" then depth != 0 && balancedFrom (depth - 1) ts
    else balancedFrom depth ts

/-- The parentheses of a token sequence are balanced. -/
def balanced (tokens : List String) : Bool :=
  balancedFrom 0 tokens

/-- The end of `shuntingYard`: an exception of the loop is passed on, and the
stack that the loop leaves is moved to the output. -/
def drainResult (r : Except Err (List String × List String)) : Except Err (List String) :=
  match r with
  | .error err => .error err
  | .ok (out, st) => drainStack st out

/-- The tokens that the evaluator has a rule for: numbers, constants, function
names and the operators of the initial table. -/
def outputToken (t : String) : Bool :=
  isNumber t || isConstant t || isFunction t || isOperator precedence t

/-- The token ends an operand: it is a number, an identifier (it starts with a
letter) or `)`. -/
def endsOperand (t : String) : Bool :=
  isNumber t || isalpha (t.data.headD '\x00') || t == ")"

/-- The token that stands for a `-` character: `-` when the flag
`checkUnaryMinus` is cleared, which is the case after a token that ends an
operand, and `#` otherwise; `start` is the flag before the tokens `before`. -/
def minusAfter (start : Bool) (before : List String) : String :=
  match before.getLast? with
  | none => if start then "#" else "-"
  | some t => if endsOperand t then "-" else "#"

/-- The token with the unary minus `#` written back as `-`. -/
def unaryAsMinus (t : String) : String :=
  if t == "#" then "-" else t

/-- The depth of the value stack after a sequence of operands, `#` and the
binary operators `+ - *`, scanned from the left with `depth` values on the
stack: an operand adds one, `#` needs one value, a binary operator needs two and
leaves one less; `none` when an operator finds too few values. -/
def rpnDepth : Nat → List String → Option Nat
  | depth, [] => some depth
  | depth, t :: ts =>
    if t == "#" then
      if 1 ≤ depth then rpnDepth depth ts else none
    else if t == "+" || t == "-" || t == "*" then
      if 2 ≤ depth then rpnDepth (depth - 1) ts else none
    else rpnDepth (depth + 1) ts

/-- The sequence is well-formed RPN: no operator finds too few values, and
exactly one value is left. -/
def wellFormedRPN (rpn : List String) : Bool :=
  rpnDepth 0 rpn == some 1

/-- A token of the sequences of C14 that `std::stod` does not throw for: a
number token that `std::stod` converts, a constant, `#`, or one of `+ - *`. -/
def simpleToken {V : Type} (D : DoubleOps V) (t : String) : Bool :=
  (isNumber t && (D.stod t).isSome) || isConstant t || t == "#" ||
    t == "+" || t == "-" || t == "*"

/-- An expression tree: a number literal, a constant, a negation, a binary
operation or a function application. -/
inductive Tree where
  | num (n : String)
  | const (c : String)
  | neg (e : Tree)
  | bin (op : String) (l r : Tree)
  | app (f : String) (e : Tree)

/-- The tree is built from number tokens, constants, the binary operators
`+ - * / **` and function names. -/
def Tree.valid : Tree → Bool
  | .num n => isNumber n
  | .const c => isConstant c
  | .neg e => e.valid
  | .bin op l r =>
    (op == "+" || op == "-" || op == "*" || op == "/" || op == "**") && l.valid && r.valid
  | .app f e => isFunction f && e.valid

/-- The tokens of the fully parenthesised rendering: a number or constant as
itself, a negation as `( # e )`, a binary operation as `( l op r )`, a function
application as `f ( e )`. -/
def Tree.render : Tree → List String
  | .num n => [n]
  | .const c => [c]
  | .neg e => ["(", "#"] ++ e.render ++ [")"]
  | .bin op l r => ["("] ++ l.render ++ [op] ++ r.render ++ [")"]
  | .app f e => [f, "("] ++ e.render ++ [")"]

/-- The post-order traversal: the operands, then the operator or function. -/
def Tree.postorder : Tree → List String
  | .num n => [n]
  | .const c => [c]
  | .neg e => e.postorder ++ ["#"]
  | .bin op l r => l.postorder ++ r.postorder ++ [op]
  | .app f e => e.postorder ++ [f]

/-- The tokens that the converter puts out at once: numbers and constants. -/
def operandToken (t : String) : Bool :=
  isNumber t || isConstant t

/-- The stack tokens that reach the output: all but `(`. -/
def notOpen (t : String) : Bool :=
  t != "("

/-- The tokens that the converter has a rule for: the tokens that the evaluator
has a rule for, and the parentheses. -/
def converterToken (t : String) : Bool :=
  outputToken t || t == "(" || t == ")"

/-- A number literal of 310 digits `9`: its value rounds to infinity as a
`double`, so that `std::stod` throws `std::out_of_range` for it. -/
def hugeLiteral : String :=
  String.mk (List.replicate 310 '9')

/-- The tokens of the sequences of C14: a number token, a constant, `#`, or one
of `+ - *`. -/
def plainToken (t : String) : Bool :=
  isNumber t || isConstant t || t == "#" || t == "+" || t == "-" || t == "*"

/-! ## Lemmas: tables and the table-free converter -/

theorem tableOK_split {prec : Table} (h : tableOK prec = true) :
    ∃ rest : Table, prec = precedence ++ rest ∧
      ∀ kv ∈ rest, isFunction kv.1 = true ∧ kv.2 = 0 := by
  refine ⟨prec.drop 6, ?_, ?_⟩
  · simp only [tableOK, Bool.and_eq_true, beq_iff_eq] at h
    conv_lhs => rw [← List.take_append_drop 6 prec]
    rw [h.1]
  · intro kv hkv
    simp only [tableOK, Bool.and_eq_true, beq_iff_eq, List.all_eq_true] at h
    exact h.2 kv hkv

theorem tableOK_of_split {rest : Table}
    (h : ∀ kv ∈ rest, isFunction kv.1 = true ∧ kv.2 = 0) :
    tableOK (precedence ++ rest) = true := by
  have h1 : (precedence ++ rest).take 6 = precedence := by simp [precedence]
  have h2 : (precedence ++ rest).drop 6 = rest := by simp [precedence]
  simp only [tableOK, h1, h2, Bool.and_eq_true, beq_iff_eq, List.all_eq_true, beq_self_eq_true,
    true_and]
  exact h

theorem lookup_rest_fun {rest : Table} (h : ∀ kv ∈ rest, isFunction kv.1 = true ∧ kv.2 = 0)
    {k : String} {v : Int} (hk : rest.lookup k = some v) : isFunction k = true ∧ v = 0 := by
  induction rest with
  | nil => simp at hk
  | cons kv rest ih =>
    obtain ⟨k2, v2⟩ := kv
    rw [List.lookup_cons] at hk
    by_cases hkk : (k == k2) = true
    · rw [hkk] at hk
      have := h (k2, v2) (List.mem_cons_self _ _)
      simp only [beq_iff_eq] at hkk
      simp only [Option.some.injEq] at hk
      subst hkk; subst hk
      exact this
    · simp only [Bool.not_eq_true] at hkk
      rw [hkk] at hk
      exact ih (fun kv hkv => h kv (List.mem_cons_of_mem _ hkv)) hk

/-- Under a table of the program, a token that is no function name is an
operator exactly when the initial table has it. -/
theorem isOperator_of_tableOK {prec : Table} (h : tableOK prec = true) {t : String}
    (ht : isFunction t = false) : isOperator prec t = isOperator precedence t := by
  obtain ⟨rest, rfl, hrest⟩ := tableOK_split h
  simp only [isOperator, mapCount, List.lookup_append]
  cases h1 : precedence.lookup t with
  | some v => simp
  | none =>
    cases h2 : rest.lookup t with
    | none => simp
    | some v => have := (lookup_rest_fun hrest h2).1; simp [ht] at this

/-- `precedence[t]` for a stack token other than `(`: its rank, and a table of
the program again. -/
theorem mapIndex_of_tableOK {prec : Table} (h : tableOK prec = true) {t : String}
    (ht : stackToken t = true) (hp : (t == "(") = false) :
    (mapIndex prec t).1 = rank t ∧ tableOK (mapIndex prec t).2 = true := by
  obtain ⟨rest, rfl, hrest⟩ := tableOK_split h
  simp only [mapIndex, List.lookup_append, rank]
  cases h1 : precedence.lookup t with
  | some v => simp [h]
  | none =>
    have hf : isFunction t = true := by
      simp only [stackToken, hp, isOperator, mapCount, h1, Option.isSome_none, Bool.or_false,
        Bool.false_or] at ht
      exact ht
    cases h2 : rest.lookup t with
    | some v =>
      have := (lookup_rest_fun hrest h2).2
      simp [this, h]
    | none =>
      simp only [Option.or_none, Option.getD_none, true_and, Option.none_or]
      rw [List.append_assoc]
      apply tableOK_of_split
      intro kv hkv
      rcases List.mem_append.1 hkv with hkv | hkv
      · exact hrest kv hkv
      · simp only [List.mem_singleton] at hkv
        subst hkv
        exact ⟨hf, rfl⟩

theorem operator_cases {t : String} (h : isOperator precedence t = true) :
    t = "+" ∨ t = "-" ∨ t = "*" ∨ t = "/" ∨ t = "#" ∨ t = "**" := by
  by_contra hc
  simp only [not_or] at hc
  obtain ⟨h1, h2, h3, h4, h5, h6⟩ := hc
  have e1 : (t == "+") = false := by simpa using h1
  have e2 : (t == "-") = false := by simpa using h2
  have e3 : (t == "*") = false := by simpa using h3
  have e4 : (t == "/") = false := by simpa using h4
  have e5 : (t == "#") = false := by simpa using h5
  have e6 : (t == "**") = false := by simpa using h6
  simp [isOperator, mapCount, precedence, List.lookup_cons, e1, e2, e3, e4, e5, e6] at h

theorem operator_not_function {t : String} (h : isOperator precedence t = true) :
    isFunction t = false := by
  rcases operator_cases h with h | h | h | h | h | h <;> subst h <;> decide

theorem operator_not_paren {t : String} (h : isOperator precedence t = true) :
    (t == "(") = false ∧ (t == ")") = false := by
  rcases operator_cases h with h | h | h | h | h | h <;> subst h <;> decide

theorem operator_assoc {t : String} (h : isOperator precedence t = true) :
    ∃ ra, mapAt rightAssociative t = some ra := by
  rcases operator_cases h with h | h | h | h | h | h <;> subst h <;> exact ⟨_, rfl⟩

/-- The loop of rule 3 under a table of the program: it moves the longest run of
stack tokens that satisfy the loop condition to the output. -/
theorem popOperators_eq {token : String} (htok : isOperator precedence token = true) :
    ∀ (st : List String) (prec : Table) (out : List String),
      tableOK prec = true → (∀ t ∈ st, stackToken t = true) →
      (popOperators token prec st out).1 =
          .ok (st.dropWhile (popsBefore token), out ++ st.takeWhile (popsBefore token)) ∧
        tableOK (popOperators token prec st out).2 = true := by
  intro st
  induction st with
  | nil => intro prec out h _; simp [popOperators, h]
  | cons top st ih =>
    intro prec out h hst
    have htop : stackToken top = true := hst top (List.mem_cons_self _ _)
    have hst2 : ∀ t ∈ st, stackToken t = true := fun t ht => hst t (List.mem_cons_of_mem _ ht)
    by_cases hp : (top == "(") = true
    · have hpb : popsBefore token top = false := by
        simp only [popsBefore, bne, hp, Bool.not_true, Bool.false_and]
      rw [popOperators]
      simp only [hp, if_true, hpb, Bool.false_eq_true, not_false_eq_true,
        List.dropWhile_cons_of_neg, List.takeWhile_cons_of_neg, List.append_nil, h, and_self]
    · simp only [Bool.not_eq_true] at hp
      obtain ⟨e1, ok1⟩ := mapIndex_of_tableOK h htop hp
      have htok2 : stackToken token = true := by simp [stackToken, htok]
      obtain ⟨e2, ok2⟩ := mapIndex_of_tableOK ok1 htok2 (operator_not_paren htok).1
      obtain ⟨ra, hra⟩ := operator_assoc htok
      have hra2 : rightAssociative.lookup token = some ra := hra
      obtain ⟨ih1, ih2⟩ := ih (mapIndex (mapIndex prec top).2 token).2 (out ++ [top]) ok2 hst2
      rw [popOperators]
      simp only [hp, Bool.false_eq_true, if_false, e1, e2, hra]
      by_cases hgt : rank top > rank token
      · have hpb : popsBefore token top = true := by
          simp only [popsBefore, bne, hp, Bool.not_false, Bool.true_and, Bool.or_eq_true,
            decide_eq_true_eq]
          exact Or.inl hgt
        simp only [hgt, if_true, ih1, ih2, hpb, List.dropWhile_cons_of_pos,
          List.takeWhile_cons_of_pos, List.append_assoc, List.singleton_append, and_self]
      · have hdec : decide (rank top > rank token) = false := by simpa using hgt
        by_cases heq : (rank top == rank token) = true
        · cases ra with
          | false =>
            have hpb : popsBefore token top = true := by
              simp only [popsBefore, bne, hp, Bool.not_false, Bool.true_and, heq, hra2,
                Option.getD_some, Bool.or_true]
            simp only [hgt, if_false, heq, if_true, Bool.not_false, hpb,
              List.dropWhile_cons_of_pos, List.takeWhile_cons_of_pos]
            rw [List.append_assoc] at ih1
            exact ⟨ih1, ih2⟩
          | true =>
            have hpb : popsBefore token top = false := by
              simp only [popsBefore, bne, hp, Bool.not_false, Bool.true_and, heq, hra2,
                Option.getD_some, Bool.not_true, Bool.and_false, Bool.or_false, hdec]
            simp only [hgt, if_false, heq, if_true, Bool.not_true, Bool.false_eq_true, hpb,
              not_false_eq_true, List.dropWhile_cons_of_neg, List.takeWhile_cons_of_neg,
              List.append_nil, ok2, and_self]
        · simp only [Bool.not_eq_true] at heq
          have hpb : popsBefore token top = false := by
            simp only [popsBefore, bne, hp, Bool.not_false, Bool.true_and, heq, Bool.false_and,
              Bool.or_false, hdec]
          simp only [hgt, if_false, heq, Bool.false_eq_true, hpb,
            not_false_eq_true, List.dropWhile_cons_of_neg, List.takeWhile_cons_of_neg,
            List.append_nil, ok2, and_self]

theorem popToParen_subset :
    ∀ (st out : List String) {st2 out2 : List String},
      popToParen st out = some (st2, out2) → ∀ t ∈ st2, t ∈ st := by
  intro st
  induction st with
  | nil => intro out st2 out2 h; simp [popToParen] at h
  | cons top st ih =>
    intro out st2 out2 h t ht
    rw [popToParen] at h
    by_cases hp : (top == "(") = true
    · simp only [hp, if_true, Option.some.injEq, Prod.mk.injEq] at h
      obtain ⟨rfl, _⟩ := h
      exact List.mem_cons_of_mem _ ht
    · simp only [hp, if_false] at h
      exact List.mem_cons_of_mem _ (ih _ h t ht)

/-- Under a table of the program the loop of `shuntingYard` computes
`convertLoop`, and leaves a table of the program. -/
theorem shuntingYardLoop_eq :
    ∀ (tokens : List String) (prec : Table) (out st : List String),
      tableOK prec = true → (∀ t ∈ st, stackToken t = true) →
      (shuntingYardLoop tokens prec out st).1 = convertLoop tokens out st ∧
        tableOK (shuntingYardLoop tokens prec out st).2 = true := by
  intro tokens
  induction tokens with
  | nil => intro prec out st h _; simp [shuntingYardLoop, convertLoop, h]
  | cons token tokens ih =>
    intro prec out st h hst
    rw [shuntingYardLoop, convertLoop]
    by_cases h1 : (isNumber token || isConstant token) = true
    · simp only [h1, if_true]; exact ih _ _ _ h hst
    · simp only [h1, if_false]
      by_cases h2 : isFunction token = true
      · simp only [h2, if_true]
        refine ih _ _ _ h ?_
        intro t ht
        rcases List.mem_cons.1 ht with rfl | ht
        · simp [stackToken, h2]
        · exact hst t ht
      · simp only [h2, if_false]
        simp only [Bool.not_eq_true] at h2
        rw [isOperator_of_tableOK h h2]
        by_cases h3 : isOperator precedence token = true
        · simp only [h3, if_true]
          obtain ⟨p1, p2⟩ := popOperators_eq h3 st prec out h hst
          generalize popOperators token prec st out = r at p1 p2
          obtain ⟨r1, r2⟩ := r
          simp only at p1 p2
          subst p1
          simp only
          refine ih _ _ _ p2 ?_
          intro t ht
          rcases List.mem_cons.1 ht with rfl | ht
          · simp [stackToken, h3]
          · exact hst t (List.dropWhile_subset _ ht)
        · simp only [h3, if_false]
          by_cases h4 : (token == "(") = true
          · simp only [h4, if_true]
            refine ih _ _ _ h ?_
            intro t ht
            rcases List.mem_cons.1 ht with rfl | ht
            · simp [stackToken, h4]
            · exact hst t ht
          · simp only [h4, if_false]
            by_cases h5 : (token == ")") = true
            · simp only [h5, if_true]
              cases hpp : popToParen st out with
              | none => simp [h]
              | some r =>
                obtain ⟨st2, out2⟩ := r
                have hsub := popToParen_subset st out hpp
                cases st2 with
                | nil => simp only; exact ih _ _ _ h (by simp)
                | cons top st2 =>
                  simp only
                  by_cases h6 : isFunction top = true
                  · simp only [h6, if_true]
                    exact ih _ _ _ h
                      (fun t ht => hst t (hsub t (List.mem_cons_of_mem _ ht)))
                  · simp only [h6, if_false]
                    exact ih _ _ _ h (fun t ht => hst t (hsub t ht))
            · simp only [h5, if_false]
              exact ih _ _ _ h hst

/-- Under a table of the program `shuntingYard` computes `convert`, and leaves a
table of the program. -/
theorem shuntingYard_eq {prec : Table} (h : tableOK prec = true) (tokens : List String) :
    (shuntingYard prec tokens).1 = convert tokens ∧
      tableOK (shuntingYard prec tokens).2 = true := by
  obtain ⟨p1, p2⟩ := shuntingYardLoop_eq tokens prec [] [] h (by simp)
  rw [shuntingYard, convert]
  generalize shuntingYardLoop tokens prec [] [] = r at p1 p2
  obtain ⟨r1, r2⟩ := r
  simp only at p1 p2
  subst p1
  cases hc : convertLoop tokens [] [] with
  | error err => simp [p2]
  | ok r => obtain ⟨out, st⟩ := r; simp [p2]

/-- The evaluator reads the table only for tokens that are no function names,
so every table of the program gives the same result. -/
theorem calculationLoop_table {V : Type} (D : DoubleOps V) {prec : Table}
    (h : tableOK prec = true) :
    ∀ (rpn : List String) (vs : List V),
      calculationLoop D prec rpn vs = calculationLoop D precedence rpn vs := by
  intro rpn
  induction rpn with
  | nil => intro vs; simp [calculationLoop]
  | cons token rpn ih =>
    intro vs
    have hstep : calculationStep D prec token vs = calculationStep D precedence token vs := by
      by_cases hf : isFunction token = true
      · simp only [calculationStep, hf, if_true]
      · simp only [Bool.not_eq_true] at hf
        simp only [calculationStep, isOperator_of_tableOK h hf]
    simp only [calculationLoop, hstep, ih]

theorem calculation_table {V : Type} (D : DoubleOps V) {prec : Table}
    (h : tableOK prec = true) (rpn : List String) :
    calculation D prec rpn = calculation D precedence rpn := by
  simp only [calculation, calculationLoop_table D h]

theorem Solve_eq {V : Type} (D : DoubleOps V) {prec : Table} (h : tableOK prec = true)
    (expression : String) :
    (Solve D prec expression).1 = evaluate D expression ∧
      tableOK (Solve D prec expression).2 = true := by
  obtain ⟨p1, p2⟩ := shuntingYard_eq h (tokenize expression)
  rw [Solve, evaluate]
  generalize shuntingYard prec (tokenize expression) = r at p1 p2
  obtain ⟨r1, r2⟩ := r
  simp only at p1 p2
  subst p1
  cases hc : convert (tokenize expression) with
  | error err => simp [p2]
  | ok rpn => simp [p2, calculation_table D p2]

/-! ## Lemmas: the tokenizer -/

theorem tokenizeLoop_fuel :
    ∀ (f1 f2 : Nat) (s : List Char) (b : Bool), s.length ≤ f1 → s.length ≤ f2 →
      tokenizeLoop f1 s b = tokenizeLoop f2 s b := by
  intro f1
  induction f1 with
  | zero =>
    intro f2 s b h1 _
    have hs : s = [] := List.length_eq_zero.1 (Nat.le_zero.1 h1)
    subst hs
    cases f2 <;> simp [tokenizeLoop]
  | succ f1 ih =>
    intro f2 s b h1 h2
    cases s with
    | nil => cases f2 <;> simp [tokenizeLoop]
    | cons c rest =>
      cases f2 with
      | zero => simp at h2
      | succ f2 =>
        simp only [List.length_cons, Nat.add_le_add_iff_right] at h1 h2
        have hd : ∀ p : Char → Bool, (rest.dropWhile p).length ≤ rest.length :=
          fun p => (List.dropWhile_suffix p).length_le
        simp only [tokenizeLoop]
        have ht : rest.tail.length ≤ rest.length := by simp
        rw [ih f2 rest b h1 h2, ih f2 rest true h1 h2, ih f2 rest false h1 h2,
          ih f2 (rest.dropWhile numberChar) false (le_trans (hd _) h1) (le_trans (hd _) h2),
          ih f2 (rest.dropWhile isalpha) false (le_trans (hd _) h1) (le_trans (hd _) h2),
          ih f2 rest.tail true (le_trans ht h1) (le_trans ht h2)]

theorem tokensFrom_nil (b : Bool) : tokensFrom [] b = [] := by
  simp [tokensFrom, tokenizeLoop]

theorem tokenize_eq (expression : String) :
    tokenize expression = tokensFrom expression.data true := rfl

/-- One iteration of the loop of `tokenize`, free of fuel. -/
theorem tokensFrom_cons (c : Char) (rest : List Char) (b : Bool) :
    tokensFrom (c :: rest) b =
      if isspace c then tokensFrom rest b
      else if isdigit c || (c == '.' && nextIsDigit rest) then
        String.mk (c :: rest.takeWhile numberChar) :: tokensFrom (rest.dropWhile numberChar) false
      else if isalpha c then
        String.mk (c :: rest.takeWhile isalpha) :: tokensFrom (rest.dropWhile isalpha) false
      else if c == '(' then "(" :: tokensFrom rest true
      else if c == ')' then ")" :: tokensFrom rest false
      else if c == '*' then
        if nextIsStar rest then "**" :: tokensFrom rest.tail true
        else "*" :: tokensFrom rest true
      else if c == '-' then (if b then "#" else "-") :: tokensFrom rest true
      else String.mk [c] :: tokensFrom rest true := by
  have hd : ∀ p : Char → Bool, (rest.dropWhile p).length ≤ rest.length :=
    fun p => (List.dropWhile_suffix p).length_le
  simp only [tokensFrom, List.length_cons, tokenizeLoop]
  rw [tokenizeLoop_fuel rest.length (rest.dropWhile numberChar).length
      (rest.dropWhile numberChar) false (hd _) le_rfl,
    tokenizeLoop_fuel rest.length (rest.dropWhile isalpha).length
      (rest.dropWhile isalpha) false (hd _) le_rfl,
    tokenizeLoop_fuel rest.length rest.tail.length rest.tail true (by simp) le_rfl]

theorem isspace_cases {c : Char} (h : isspace c = true) :
    c = ' ' ∨ c = '\t' ∨ c = '\n' ∨ c = '\x0b' ∨ c = '\x0c' ∨ c = '\r' := by
  simp only [isspace, Bool.or_eq_true, beq_iff_eq] at h
  tauto

theorem numberChar_not_space {c : Char} (h : numberChar c = true) : isspace c = false := by
  cases hs : isspace c with
  | false => rfl
  | true =>
    exfalso
    rcases isspace_cases hs with rfl | rfl | rfl | rfl | rfl | rfl <;> revert h <;> decide

theorem isalpha_not_space {c : Char} (h : isalpha c = true) : isspace c = false := by
  cases hs : isspace c with
  | false => rfl
  | true =>
    exfalso
    rcases isspace_cases hs with rfl | rfl | rfl | rfl | rfl | rfl <;> revert h <;> decide

theorem numberChar_not_star {c : Char} (h : numberChar c = true) : (c == '*') = false := by
  cases hs : c == '*' with
  | false => rfl
  | true =>
    exfalso
    have : c = '*' := by simpa using hs
    subst this
    revert h; decide

theorem takeWhile_append_stop {p : Char → Bool} {l tail : List Char}
    (hl : ∀ x ∈ l, p x = true) (ht : ∀ d r, tail = d :: r → p d = false) :
    (l ++ tail).takeWhile p = l ∧ (l ++ tail).dropWhile p = tail := by
  rw [List.takeWhile_append_of_pos hl, List.dropWhile_append_of_pos hl]
  cases tail with
  | nil => simp
  | cons d r =>
    have := ht d r rfl
    simp [this]

theorem isNumberLiteral_data {a : String} (h : isNumberLiteral a = true) :
    ∃ c rest, a.data = c :: rest ∧ (isdigit c || (c == '.' && nextIsDigit rest)) = true ∧
      ∀ x ∈ rest, numberChar x = true := by
  unfold isNumberLiteral at h
  cases hd : a.data with
  | nil => rw [hd] at h; simp at h
  | cons c rest =>
    rw [hd] at h
    simp only [Bool.and_eq_true, List.all_eq_true] at h
    exact ⟨c, rest, rfl, h.1, h.2⟩

theorem isNumber_of_literal {a : String} (h : isNumberLiteral a = true) : isNumber a = true := by
  obtain ⟨c, rest, hd, hc, _⟩ := isNumberLiteral_data h
  simp only [isNumber, hd, List.headD_cons, List.length_cons]
  simp only [Bool.or_eq_true, Bool.and_eq_true] at hc ⊢
  rcases hc with hc | ⟨h1, h2⟩
  · exact Or.inl hc
  · refine Or.inr ⟨h1, ?_⟩
    cases rest with
    | nil => simp [nextIsDigit] at h2
    | cons d r => simp

/-- The tokenizer reads a number literal as one token when the next character
is neither a digit nor a `.`. -/
theorem tokensFrom_literal {a : String} (ha : isNumberLiteral a = true) (tail : List Char)
    (ht : ∀ d r, tail = d :: r → numberChar d = false) (b : Bool) :
    tokensFrom (a.data ++ tail) b = a :: tokensFrom tail false := by
  obtain ⟨c, rest, hd, hc, hrest⟩ := isNumberLiteral_data ha
  have hnc : numberChar c = true := by
    simp only [numberChar, Bool.or_eq_true, Bool.and_eq_true] at hc ⊢
    rcases hc with hc | ⟨h1, _⟩
    · exact Or.inl hc
    · exact Or.inr h1
  have hcond : (isdigit c || (c == '.' && nextIsDigit (rest ++ tail))) = true := by
    simp only [Bool.or_eq_true, Bool.and_eq_true] at hc ⊢
    rcases hc with hc | ⟨h1, h2⟩
    · exact Or.inl hc
    · refine Or.inr ⟨h1, ?_⟩
      cases rest with
      | nil => simp [nextIsDigit] at h2
      | cons d r => simpa [nextIsDigit] using h2
  obtain ⟨e1, e2⟩ := takeWhile_append_stop hrest ht
  have ha2 : a = String.mk (c :: rest) := by
    cases a; simp only at hd; rw [hd]
  rw [hd, List.cons_append, tokensFrom_cons]
  simp only [numberChar_not_space hnc, Bool.false_eq_true, if_false, hcond, if_true, e1, e2, ha2]

theorem nextIsStar_literal {a : String} (ha : isNumberLiteral a = true) (tail : List Char) :
    nextIsStar (a.data ++ tail) = false := by
  obtain ⟨c, rest, hd, hc, hrest⟩ := isNumberLiteral_data ha
  have hnc : numberChar c = true := by
    simp only [numberChar, Bool.or_eq_true, Bool.and_eq_true] at hc ⊢
    rcases hc with hc | ⟨h1, _⟩
    · exact Or.inl hc
    · exact Or.inr h1
  rw [hd]
  simp [nextIsStar, numberChar_not_star hnc]

/-- The single-character tokens and `**`. -/
theorem tokensFrom_plus (tail : List Char) (b : Bool) :
    tokensFrom ('+' :: tail) b = "+" :: tokensFrom tail true := by
  rw [tokensFrom_cons]; rfl

theorem tokensFrom_slash (tail : List Char) (b : Bool) :
    tokensFrom ('/' :: tail) b = "/" :: tokensFrom tail true := by
  rw [tokensFrom_cons]; rfl

theorem tokensFrom_open (tail : List Char) (b : Bool) :
    tokensFrom ('(' :: tail) b = "(" :: tokensFrom tail true := by
  rw [tokensFrom_cons]; rfl

theorem tokensFrom_close (tail : List Char) (b : Bool) :
    tokensFrom (')' :: tail) b = ")" :: tokensFrom tail false := by
  rw [tokensFrom_cons]; rfl

theorem tokensFrom_minus (tail : List Char) (b : Bool) :
    tokensFrom ('-' :: tail) b = (if b then "#" else "-") :: tokensFrom tail true := by
  rw [tokensFrom_cons]; rfl

theorem tokensFrom_star {tail : List Char} (h : nextIsStar tail = false) (b : Bool) :
    tokensFrom ('*' :: tail) b = "*" :: tokensFrom tail true := by
  rw [tokensFrom_cons]
  simp +decide [h]

theorem tokensFrom_power (tail : List Char) (b : Bool) :
    tokensFrom ('*' :: '*' :: tail) b = "**" :: tokensFrom tail true := by
  rw [tokensFrom_cons]; rfl

/-! ## Lemmas: the rules of the converter and of the evaluator -/

theorem convertLoop_number {t : String} (h : isNumber t = true) (ts out st : List String) :
    convertLoop (t :: ts) out st = convertLoop ts (out ++ [t]) st := by
  simp [convertLoop, h]

theorem operator_not_number {t : String} (h : isOperator precedence t = true) :
    isNumber t = false ∧ isConstant t = false := by
  rcases operator_cases h with h | h | h | h | h | h <;> subst h <;> decide

theorem convertLoop_operator {t : String} (h : isOperator precedence t = true)
    (ts out st : List String) :
    convertLoop (t :: ts) out st =
      convertLoop ts (out ++ st.takeWhile (popsBefore t)) (t :: st.dropWhile (popsBefore t)) := by
  simp [convertLoop, h, operator_not_number h, operator_not_function h]

theorem convertLoop_open (ts out st : List String) :
    convertLoop ("(" :: ts) out st = convertLoop ts out ("(" :: st) := by
  rw [convertLoop]; rfl

theorem calculationLoop_number {V : Type} (D : DoubleOps V) (prec : Table) {t : String} {v : V}
    (h : isNumber t = true) (hv : D.stod t = some v) (ts : List String) (vs : List V) :
    calculationLoop D prec (t :: ts) vs = calculationLoop D prec ts (v :: vs) := by
  simp [calculationLoop, calculationStep, h, hv]

theorem calculationLoop_number_fail {V : Type} (D : DoubleOps V) (prec : Table) {t : String}
    (h : isNumber t = true) (hv : D.stod t = none) (ts : List String) (vs : List V) :
    calculationLoop D prec (t :: ts) vs = .error .stodFailed := by
  simp [calculationLoop, calculationStep, h, hv]

theorem calculationLoop_add {V : Type} (D : DoubleOps V) (ts : List String) (v1 v2 : V)
    (vs : List V) :
    calculationLoop D precedence ("+" :: ts) (v2 :: v1 :: vs) =
      calculationLoop D precedence ts (D.add v1 v2 :: vs) := by
  rw [calculationLoop]; rfl

theorem calculationLoop_sub {V : Type} (D : DoubleOps V) (ts : List String) (v1 v2 : V)
    (vs : List V) :
    calculationLoop D precedence ("-" :: ts) (v2 :: v1 :: vs) =
      calculationLoop D precedence ts (D.sub v1 v2 :: vs) := by
  rw [calculationLoop]; rfl

theorem calculationLoop_mul {V : Type} (D : DoubleOps V) (ts : List String) (v1 v2 : V)
    (vs : List V) :
    calculationLoop D precedence ("*" :: ts) (v2 :: v1 :: vs) =
      calculationLoop D precedence ts (D.mul v1 v2 :: vs) := by
  rw [calculationLoop]; rfl

theorem calculationLoop_pow {V : Type} (D : DoubleOps V) (ts : List String) (v1 v2 : V)
    (vs : List V) :
    calculationLoop D precedence ("**" :: ts) (v2 :: v1 :: vs) =
      calculationLoop D precedence ts (D.pow v1 v2 :: vs) := by
  rw [calculationLoop]; rfl

theorem calculationLoop_neg {V : Type} (D : DoubleOps V) (ts : List String) (v : V)
    (vs : List V) :
    calculationLoop D precedence ("#" :: ts) (v :: vs) =
      calculationLoop D precedence ts (D.neg v :: vs) := by
  rw [calculationLoop]; rfl

theorem tail_plus : ∀ (l : List Char) (d : Char) (r : List Char),
    '+' :: l = d :: r → numberChar d = false := by
  intro l d r h; cases h; decide

theorem tail_star : ∀ (l : List Char) (d : Char) (r : List Char),
    '*' :: l = d :: r → numberChar d = false := by
  intro l d r h; cases h; decide

theorem tail_close : ∀ (l : List Char) (d : Char) (r : List Char),
    ')' :: l = d :: r → numberChar d = false := by
  intro l d r h; cases h; decide

theorem tail_minus : ∀ (l : List Char) (d : Char) (r : List Char),
    '-' :: l = d :: r → numberChar d = false := by
  intro l d r h; cases h; decide

theorem tail_nil : ∀ (d : Char) (r : List Char), ([] : List Char) = d :: r → numberChar d = false := by
  intro d r h; cases h

theorem tokensFrom_literal_end {a : String} (ha : isNumberLiteral a = true) (b : Bool) :
    tokensFrom a.data b = [a] := by
  have := tokensFrom_literal ha [] tail_nil b
  simpa [tokensFrom_nil] using this

theorem tokenize_sum_product {a b c : String} (ha : isNumberLiteral a = true)
    (hb : isNumberLiteral b = true) (hc : isNumberLiteral c = true) :
    tokenize (a ++ "+" ++ b ++ "*" ++ c) = [a, "+", b, "*", c] := by
  rw [tokenize_eq]
  have e : (a ++ "+" ++ b ++ "*" ++ c).data = a.data ++ '+' :: (b.data ++ '*' :: c.data) := by
    simp [String.data_append]
  rw [e, tokensFrom_literal ha _ (tail_plus _), tokensFrom_plus,
    tokensFrom_literal hb _ (tail_star _),
    tokensFrom_star (by simpa using nextIsStar_literal hc []), tokensFrom_literal_end hc]

theorem tokenize_group_product {a b c : String} (ha : isNumberLiteral a = true)
    (hb : isNumberLiteral b = true) (hc : isNumberLiteral c = true) :
    tokenize ("(" ++ a ++ "+" ++ b ++ ")" ++ "*" ++ c) = ["(", a, "+", b, ")", "*", c] := by
  rw [tokenize_eq]
  have e : ("(" ++ a ++ "+" ++ b ++ ")" ++ "*" ++ c).data =
      '(' :: (a.data ++ '+' :: (b.data ++ ')' :: '*' :: c.data)) := by
    simp [String.data_append]
  rw [e, tokensFrom_open, tokensFrom_literal ha _ (tail_plus _), tokensFrom_plus,
    tokensFrom_literal hb _ (tail_close _), tokensFrom_close,
    tokensFrom_star (by simpa using nextIsStar_literal hc []), tokensFrom_literal_end hc]

theorem convert_sum_product {a b c : String} (ha : isNumber a = true)
    (hb : isNumber b = true) (hc : isNumber c = true) :
    convert [a, "+", b, "*", c] = .ok [a, b, c, "*", "+"] := by
  have h1 : isOperator precedence "+" = true := by decide
  have h2 : isOperator precedence "*" = true := by decide
  rw [convert, convertLoop_number ha, convertLoop_operator h1, convertLoop_number hb,
    convertLoop_operator h2, convertLoop_number hc]
  rfl

theorem convert_group_product {a b c : String} (ha : isNumber a = true)
    (hb : isNumber b = true) (hc : isNumber c = true) :
    convert ["(", a, "+", b, ")", "*", c] = .ok [a, b, "+", c, "*"] := by
  have h1 : isOperator precedence "+" = true := by decide
  have h2 : isOperator precedence "*" = true := by decide
  rw [convert, convertLoop_open, convertLoop_number ha, convertLoop_operator h1,
    convertLoop_number hb]
  have e : convertLoop [")", "*", c]
      ([] ++ [a] ++ List.takeWhile (popsBefore "+") ["("] ++ [b])
      ("+" :: List.dropWhile (popsBefore "+") ["("]) = convertLoop ["*", c] [a, b, "+"] [] := by
    rw [convertLoop]; rfl
  rw [e, convertLoop_operator h2, convertLoop_number hc]
  rfl

/-! ## The properties and their lemmas -/

set_option maxRecDepth 20000 in
/-- C1 fails at the literals `a` of 310 digits `9`, `3` and `4`: `a` is a number
literal, the postfix sequence of `a+3*4` is `[a, 3, 4, *, +]`, and `std::stod`
throws `std::out_of_range` for `a`, so that the pipeline ends in that exception
instead of returning `a + (3 * 4)`. -/
theorem C1_stod_throws_for_a_literal :
    isNumberLiteral hugeLiteral = true ∧ exactOps.stod hugeLiteral = none ∧
    (shuntingYard precedence (tokenize (hugeLiteral ++ "+" ++ "3" ++ "*" ++ "4"))).1 =
      .ok [hugeLiteral, "3", "4", "*", "+"] ∧
    (Solve exactOps precedence (hugeLiteral ++ "+" ++ "3" ++ "*" ++ "4")).1 =
      .error .stodFailed := by
  decide

/-- C1 as amended (precedence and grouping): under every table of the program
and for all number literals `a`, `b`, `c`, `tokenize` followed by `shuntingYard`
turns `a+b*c` into `[a, b, c, *, +]` and `(a+b)*c` into `[a, b, +, c, *]`; the
pipeline returns `a + (b * c)` and `(a + b) * c` when `std::stod` converts `a`,
`b` and `c`, and throws the exception of `std::stod` when it does not convert
one of them; in the exact reading `2+3*4` gives 14 and `(2+3)*4` gives 20. -/
theorem C1_precedence_and_grouping {V : Type} (D : DoubleOps V) (prec : Table)
    (a b c : String) (hprec : tableOK prec = true)
    (ha : isNumberLiteral a = true) (hb : isNumberLiteral b = true)
    (hc : isNumberLiteral c = true) :
    (shuntingYard prec (tokenize (a ++ "+" ++ b ++ "*" ++ c))).1 = .ok [a, b, c, "*", "+"] ∧
    (shuntingYard prec (tokenize ("(" ++ a ++ "+" ++ b ++ ")" ++ "*" ++ c))).1 =
      .ok [a, b, "+", c, "*"] ∧
    (∀ va vb vc, D.stod a = some va → D.stod b = some vb → D.stod c = some vc →
      (Solve D prec (a ++ "+" ++ b ++ "*" ++ c)).1 = .ok (D.add va (D.mul vb vc)) ∧
      (Solve D prec ("(" ++ a ++ "+" ++ b ++ ")" ++ "*" ++ c)).1 =
        .ok (D.mul (D.add va vb) vc)) ∧
    (D.stod a = none ∨ D.stod b = none ∨ D.stod c = none →
      (Solve D prec (a ++ "+" ++ b ++ "*" ++ c)).1 = .error .stodFailed ∧
      (Solve D prec ("(" ++ a ++ "+" ++ b ++ ")" ++ "*" ++ c)).1 = .error .stodFailed) ∧
    (Solve exactOps precedence "2+3*4").1 = .ok (.int 14) ∧
    (Solve exactOps precedence "(2+3)*4").1 = .ok (.int 20) := by
  have na := isNumber_of_literal ha
  have nb := isNumber_of_literal hb
  have nc := isNumber_of_literal hc
  have e1 : (Solve D prec (a ++ "+" ++ b ++ "*" ++ c)).1 =
      calculation D precedence [a, b, c, "*", "+"] := by
    rw [(Solve_eq D hprec _).1, evaluate, tokenize_sum_product ha hb hc,
      convert_sum_product na nb nc]
  have e2 : (Solve D prec ("(" ++ a ++ "+" ++ b ++ ")" ++ "*" ++ c)).1 =
      calculation D precedence [a, b, "+", c, "*"] := by
    rw [(Solve_eq D hprec _).1, evaluate, tokenize_group_product ha hb hc,
      convert_group_product na nb nc]
  refine ⟨?_, ?_, ?_, ?_, by decide, by decide⟩
  · rw [(shuntingYard_eq hprec _).1, tokenize_sum_product ha hb hc, convert_sum_product na nb nc]
  · rw [(shuntingYard_eq hprec _).1, tokenize_group_product ha hb hc,
      convert_group_product na nb nc]
  · intro va vb vc hva hvb hvc
    rw [e1, e2]
    simp only [calculation]
    rw [calculationLoop_number D _ na hva, calculationLoop_number D _ nb hvb,
      calculationLoop_number D _ nc hvc, calculationLoop_mul, calculationLoop_add,
      calculationLoop_number D _ na hva, calculationLoop_number D _ nb hvb,
      calculationLoop_add, calculationLoop_number D _ nc hvc, calculationLoop_mul]
    exact ⟨rfl, rfl⟩
  · intro hfail
    rw [e1, e2]
    simp only [calculation]
    cases hva : D.stod a with
    | none =>
      rw [calculationLoop_number_fail D _ na hva, calculationLoop_number_fail D _ na hva]
      exact ⟨rfl, rfl⟩
    | some va =>
      rw [calculationLoop_number D _ na hva, calculationLoop_number D _ na hva]
      cases hvb : D.stod b with
      | none =>
        rw [calculationLoop_number_fail D _ nb hvb, calculationLoop_number_fail D _ nb hvb]
        exact ⟨rfl, rfl⟩
      | some vb =>
        rw [calculationLoop_number D _ nb hvb, calculationLoop_number D _ nb hvb,
          calculationLoop_add]
        cases hvc : D.stod c with
        | none =>
          rw [calculationLoop_number_fail D _ nc hvc, calculationLoop_number_fail D _ nc hvc]
          exact ⟨rfl, rfl⟩
        | some vc =>
          rw [hva, hvb, hvc] at hfail
          simp at hfail

/-- The amended C1 at the initial table, the literals `12`, `.5` and `7.25`, and
the exact reading, in which `.5` and `7.25` are values it does not determine. -/
theorem C1_precedence_and_grouping_witness :
    (tableOK precedence = true ∧ isNumberLiteral "12" = true ∧ isNumberLiteral ".5" = true ∧
      isNumberLiteral "7.25" = true) ∧
    (shuntingYard precedence (tokenize ("12" ++ "+" ++ ".5" ++ "*" ++ "7.25"))).1 =
      .ok ["12", ".5", "7.25", "*", "+"] :=
  ⟨by decide,
    (C1_precedence_and_grouping exactOps precedence "12" ".5" "7.25"
      (by decide) (by decide) (by decide) (by decide)).1⟩

theorem drainStack_no_paren :
    ∀ (st out : List String), (∀ t ∈ st, (t == "(") = false) →
      drainStack st out = .ok (out ++ st) := by
  intro st
  induction st with
  | nil => intro out _; simp [drainStack]
  | cons top st ih =>
    intro out h
    rw [drainStack]
    simp only [h top (List.mem_cons_self _ _), Bool.false_eq_true, if_false]
    rw [ih _ (fun t ht => h t (List.mem_cons_of_mem _ ht))]
    simp

theorem flatMap_shift (op : String) :
    ∀ ns : List String,
      ns.flatMap (fun n => [op, n]) ++ [op] = op :: ns.flatMap (fun n => [n, op]) := by
  intro ns
  induction ns with
  | nil => simp
  | cons n ns ih => simp [List.flatMap_cons, ih]

theorem convertLoop_left_chain {op : String} (hop : isOperator precedence op = true)
    (hl : popsBefore op op = true) :
    ∀ (ns out : List String), (∀ n ∈ ns, isNumber n = true) →
      convertLoop (ns.flatMap (fun n => [op, n])) out [op] =
        .ok (out ++ ns.flatMap (fun n => [op, n]), [op]) := by
  intro ns
  induction ns with
  | nil => intro out _; simp [convertLoop]
  | cons n ns ih =>
    intro out h
    have hn := h n (List.mem_cons_self _ _)
    simp only [List.flatMap_cons, List.cons_append, List.nil_append]
    rw [convertLoop_operator hop, convertLoop_number hn]
    simp only [hl, List.takeWhile_cons_of_pos, List.dropWhile_cons_of_pos, List.takeWhile_nil,
      List.dropWhile_nil]
    rw [ih _ (fun m hm => h m (List.mem_cons_of_mem _ hm))]
    simp

theorem convert_left_chain {op : String} (hop : isOperator precedence op = true)
    (hl : popsBefore op op = true) (n0 : String) (ns : List String)
    (h : ∀ n ∈ n0 :: ns, isNumber n = true) :
    convert (n0 :: ns.flatMap (fun n => [op, n])) = .ok (n0 :: ns.flatMap (fun n => [n, op])) := by
  have h0 := h n0 (List.mem_cons_self _ _)
  have hp := (operator_not_paren hop).1
  rw [convert, convertLoop_number h0]
  cases ns with
  | nil => simp [convertLoop, drainStack]
  | cons n1 ns =>
    have h1 := h n1 (List.mem_cons_of_mem _ (List.mem_cons_self _ _))
    simp only [List.flatMap_cons, List.cons_append, List.nil_append]
    rw [convertLoop_operator hop, convertLoop_number h1]
    simp only [List.takeWhile_nil, List.dropWhile_nil, List.append_nil]
    rw [convertLoop_left_chain hop hl ns _
      (fun m hm => h m (List.mem_cons_of_mem _ (List.mem_cons_of_mem _ hm)))]
    simp only
    rw [drainStack_no_paren _ _ (by simpa using hp)]
    simp only [List.append_assoc, List.cons_append, List.nil_append, flatMap_shift]

theorem convertLoop_power_chain :
    ∀ (ns out : List String) (j : Nat), (∀ n ∈ ns, isNumber n = true) →
      convertLoop (ns.flatMap (fun n => ["**", n])) out (List.replicate j "**") =
        .ok (out ++ ns, List.replicate (j + ns.length) "**") := by
  intro ns
  induction ns with
  | nil => intro out j _; simp [convertLoop]
  | cons n ns ih =>
    intro out j h
    have hn := h n (List.mem_cons_self _ _)
    have hop : isOperator precedence "**" = true := by decide
    have hkeep : List.takeWhile (popsBefore "**") (List.replicate j "**") = [] ∧
        List.dropWhile (popsBefore "**") (List.replicate j "**") = List.replicate j "**" := by
      cases j with
      | zero => simp
      | succ j =>
        have : popsBefore "**" "**" = false := by decide
        simp [List.replicate_succ, this]
    simp only [List.flatMap_cons, List.cons_append, List.nil_append]
    rw [convertLoop_operator hop, convertLoop_number hn, hkeep.1, hkeep.2]
    have e : "**" :: List.replicate j "**" = List.replicate (j + 1) "**" := by
      simp [List.replicate_succ]
    rw [e, ih _ _ (fun m hm => h m (List.mem_cons_of_mem _ hm))]
    simp only [List.append_nil, List.append_assoc, List.singleton_append, List.length_cons]
    congr 3
    omega

theorem convert_power_chain (n0 : String) (ns : List String)
    (h : ∀ n ∈ n0 :: ns, isNumber n = true) :
    convert (n0 :: ns.flatMap (fun n => ["**", n])) =
      .ok (n0 :: ns ++ List.replicate ns.length "**") := by
  have h0 := h n0 (List.mem_cons_self _ _)
  rw [convert, convertLoop_number h0]
  have := convertLoop_power_chain ns ([] ++ [n0]) 0 (fun m hm => h m (List.mem_cons_of_mem _ hm))
  simp only [List.replicate_zero, List.nil_append, Nat.zero_add] at this
  simp only [List.nil_append]
  rw [this]
  simp only
  rw [drainStack_no_paren]
  · simp
  · intro t ht
    rw [List.eq_of_mem_replicate ht]
    decide

/-- C2 (left-associative chains): under every table of the program, for each of
`+ - * /` as `op` and number tokens `n0, n1, ..., nk`, `shuntingYard` turns
`n0 op n1 op ... op nk` into `n0 n1 op n2 op ... nk op`; `10-3-2` is tokenized
to `10 - 3 - 2`, converted to `10 3 - 2 -`, and gives 5 in the exact reading. -/
theorem C2_left_associative_chains (prec : Table) (op n0 : String) (ns : List String)
    (hprec : tableOK prec = true) (hop : op ∈ ["+", "-", "*", "/"])
    (hn : ∀ n ∈ n0 :: ns, isNumber n = true) :
    (shuntingYard prec (n0 :: ns.flatMap (fun n => [op, n]))).1 =
      .ok (n0 :: ns.flatMap (fun n => [n, op])) ∧
    tokenize "10-3-2" = ["10", "-", "3", "-", "2"] ∧
    (shuntingYard precedence ["10", "-", "3", "-", "2"]).1 = .ok ["10", "3", "-", "2", "-"] ∧
    (Solve exactOps precedence "10-3-2").1 = .ok (.int 5) := by
  refine ⟨?_, by decide, by decide, by decide⟩
  rw [(shuntingYard_eq hprec _).1]
  simp only [List.mem_cons, List.mem_singleton, List.not_mem_nil, or_false] at hop
  rcases hop with rfl | rfl | rfl | rfl
  · exact convert_left_chain (by decide) (by decide) n0 ns hn
  · exact convert_left_chain (by decide) (by decide) n0 ns hn
  · exact convert_left_chain (by decide) (by decide) n0 ns hn
  · exact convert_left_chain (by decide) (by decide) n0 ns hn

/-- C2 at the initial table and the chain `8 / 4 / 2 / 1`. -/
theorem C2_left_associative_chains_witness :
    (tableOK precedence = true ∧ "/" ∈ ["+", "-", "*", "/"] ∧
      ∀ n ∈ ["8", "4", "2", "1"], isNumber n = true) ∧
    (shuntingYard precedence ["8", "/", "4", "/", "2", "/", "1"]).1 =
      .ok ["8", "4", "/", "2", "/", "1", "/"] :=
  ⟨by decide,
    (C2_left_associative_chains precedence "/" "8" ["4", "2", "1"] (by decide) (by decide)
      (by decide)).1⟩

/-- C3 (right-associative chains): under every table of the program and for
number tokens `n0, n1, ..., nk`, `shuntingYard` turns `n0 ** n1 ** ... ** nk`
into `n0 n1 ... nk` followed by `k` copies of `**`; `2**3**2` is tokenized to
`2 ** 3 ** 2`, converted to `2 3 2 ** **`, and gives 512, not 64, in the exact
reading. -/
theorem C3_right_associative_chains (prec : Table) (n0 : String) (ns : List String)
    (hprec : tableOK prec = true) (hn : ∀ n ∈ n0 :: ns, isNumber n = true) :
    (shuntingYard prec (n0 :: ns.flatMap (fun n => ["**", n]))).1 =
      .ok (n0 :: ns ++ List.replicate ns.length "**") ∧
    tokenize "2**3**2" = ["2", "**", "3", "**", "2"] ∧
    (shuntingYard precedence ["2", "**", "3", "**", "2"]).1 = .ok ["2", "3", "2", "**", "**"] ∧
    (Solve exactOps precedence "2**3**2").1 = .ok (.int 512) ∧
    (Solve exactOps precedence "2**3**2").1 ≠ .ok (.int 64) := by
  refine ⟨?_, by decide, by decide, by decide, by decide⟩
  rw [(shuntingYard_eq hprec _).1]
  exact convert_power_chain n0 ns hn

/-- C3 at the initial table and the chain `2 ** 1 ** 3 ** 0`. -/
theorem C3_right_associative_chains_witness :
    (tableOK precedence = true ∧ ∀ n ∈ ["2", "1", "3", "0"], isNumber n = true) ∧
    (shuntingYard precedence ["2", "**", "1", "**", "3", "**", "0"]).1 =
      .ok ["2", "1", "3", "0", "**", "**", "**"] :=
  ⟨by decide,
    (C3_right_associative_chains precedence "2" ["1", "3", "0"] (by decide) (by decide)).1⟩

/-- C4 (function calls) at `sqrt(4)` and `sin(0)`: `sqrt(4)` is tokenized to
`sqrt ( 4 )` and converted to `4 sqrt`; `calculation` pops the `4` and pushes
nothing for `sqrt`, so that under every reading of the arithmetic the pipeline
throws instead of returning a number ("Invalid expression" when `std::stod`
converts the `4`), while `sin(0)` gives 0 in the exact reading. -/
theorem C4_function_calls_sqrt {V : Type} (D : DoubleOps V) :
    tokenize "sqrt(4)" = ["sqrt", "(", "4", ")"] ∧
    (shuntingYard precedence ["sqrt", "(", "4", ")"]).1 = .ok ["4", "sqrt"] ∧
    calculationLoop exactOps precedence ["4", "sqrt"] [] = .ok [] ∧
    ((Solve D precedence "sqrt(4)").1 = .error .invalidExpression ∨
      (Solve D precedence "sqrt(4)").1 = .error .stodFailed) ∧
    (Solve exactOps precedence "sqrt(4)").1 = .error .invalidExpression ∧
    (Solve exactOps precedence "sin(0)").1 = .ok (.int 0) := by
  refine ⟨by decide, by decide, by decide, ?_, by decide, by decide⟩
  have e : (Solve D precedence "sqrt(4)").1 = calculation D precedence ["4", "sqrt"] := by
    rw [(Solve_eq D (by decide) _).1, evaluate]
    have : convert (tokenize "sqrt(4)") = .ok ["4", "sqrt"] := by decide
    rw [this]
  rw [e]
  have h4 : isNumber "4" = true := by decide
  cases hv : D.stod "4" with
  | none =>
    right
    simp [calculation, calculationLoop, calculationStep, h4, hv]
  | some v =>
    left
    simp only [calculation]
    rw [calculationLoop_number D _ h4 hv]
    have : calculationLoop D precedence ["sqrt"] [v] = .ok [] := rfl
    rw [this]

/-- The loop of `calculation` over a sequence in two parts: the second part
starts from the stack that the first part leaves. -/
theorem calculationLoop_append {V : Type} (D : DoubleOps V) (prec : Table) :
    ∀ (pre post : List String) (vs : List V),
      calculationLoop D prec (pre ++ post) vs =
        match calculationLoop D prec pre vs with
        | .error err => .error err
        | .ok vs2 => calculationLoop D prec post vs2 := by
  intro pre
  induction pre with
  | nil => intro post vs; simp [calculationLoop]
  | cons token pre ih =>
    intro post vs
    simp only [List.cons_append, calculationLoop]
    cases calculationStep D prec token vs with
    | error err => rfl
    | ok vs2 => exact ih post vs2

/-- C7 (division by zero): under every table of the program, when the tokens
before a `/` leave a value stack whose top (the right operand) is zero,
`calculation` throws "Division by zero", whatever the left operand, the rest of
the stack and the tokens after the `/` are; the pipeline throws it for `5/0`. -/
theorem C7_division_by_zero {V : Type} (D : DoubleOps V) (prec : Table)
    (pre post : List String) (stack : List V) (v1 v2 : V) (hprec : tableOK prec = true)
    (hpre : calculationLoop D prec pre [] = .ok (v2 :: v1 :: stack))
    (hzero : D.isZero v2 = true) :
    calculation D prec (pre ++ "/" :: post) = .error .divisionByZero ∧
    (Solve exactOps precedence "5/0").1 = .error .divisionByZero := by
  refine ⟨?_, by decide⟩
  rw [calculation_table D hprec]
  rw [calculationLoop_table D hprec] at hpre
  simp only [calculation]
  rw [calculationLoop_append, hpre]
  have hstep : calculationStep D precedence "/" (v2 :: v1 :: stack) =
      if D.isZero v2 then .error .divisionByZero else .ok (D.div v1 v2 :: stack) := rfl
  simp only [calculationLoop, hstep, hzero, if_true]

/-- C7 at the initial table, the exact reading and the sequence `7 5 0 / +`. -/
theorem C7_division_by_zero_witness :
    (tableOK precedence = true ∧
      calculationLoop exactOps precedence ["7", "5", "0"] [] = .ok [.int 0, .int 5, .int 7] ∧
      exactOps.isZero (.int 0) = true) ∧
    calculation exactOps precedence (["7", "5", "0"] ++ "/" :: ["+"]) = .error .divisionByZero :=
  ⟨by decide,
    (C7_division_by_zero exactOps precedence ["7", "5", "0"] ["+"] [.int 7] (.int 5) (.int 0)
      (by decide) (by decide) (by decide)).1⟩

theorem tokenize_neg_sum {a b : String} (ha : isNumberLiteral a = true)
    (hb : isNumberLiteral b = true) :
    tokenize ("-" ++ a ++ "+" ++ b) = ["#", a, "+", b] := by
  rw [tokenize_eq]
  have e : ("-" ++ a ++ "+" ++ b).data = '-' :: (a.data ++ '+' :: b.data) := by
    simp [String.data_append]
  rw [e, tokensFrom_minus, tokensFrom_literal ha _ (tail_plus _), tokensFrom_plus,
    tokensFrom_literal_end hb]
  rfl

theorem tokenize_product_neg {a b : String} (ha : isNumberLiteral a = true)
    (hb : isNumberLiteral b = true) :
    tokenize (a ++ "*" ++ "-" ++ b) = [a, "*", "#", b] := by
  rw [tokenize_eq]
  have e : (a ++ "*" ++ "-" ++ b).data = a.data ++ '*' :: '-' :: b.data := by
    simp [String.data_append]
  rw [e, tokensFrom_literal ha _ (tail_star _), tokensFrom_star (by rfl), tokensFrom_minus,
    tokensFrom_literal_end hb]
  rfl

theorem tokenize_minus_neg {a b : String} (ha : isNumberLiteral a = true)
    (hb : isNumberLiteral b = true) :
    tokenize (a ++ "-" ++ "-" ++ b) = [a, "-", "#", b] := by
  rw [tokenize_eq]
  have e : (a ++ "-" ++ "-" ++ b).data = a.data ++ '-' :: '-' :: b.data := by
    simp [String.data_append]
  rw [e, tokensFrom_literal ha _ (tail_minus _), tokensFrom_minus, tokensFrom_minus,
    tokensFrom_literal_end hb]
  rfl

theorem convert_neg_sum {a b : String} (ha : isNumber a = true) (hb : isNumber b = true) :
    convert ["#", a, "+", b] = .ok [a, "#", b, "+"] := by
  have h1 : isOperator precedence "#" = true := by decide
  have h2 : isOperator precedence "+" = true := by decide
  rw [convert, convertLoop_operator h1, convertLoop_number ha, convertLoop_operator h2,
    convertLoop_number hb]
  rfl

theorem convert_binary_neg {op a b : String} (hop : op ∈ ["*", "-"]) (ha : isNumber a = true)
    (hb : isNumber b = true) :
    convert [a, op, "#", b] = .ok [a, b, "#", op] := by
  have h1 : isOperator precedence "#" = true := by decide
  simp only [List.mem_cons, List.mem_singleton, List.not_mem_nil, or_false] at hop
  rcases hop with rfl | rfl
  · have h2 : isOperator precedence "*" = true := by decide
    rw [convert, convertLoop_number ha, convertLoop_operator h2, convertLoop_operator h1,
      convertLoop_number hb]
    rfl
  · have h2 : isOperator precedence "-" = true := by decide
    rw [convert, convertLoop_number ha, convertLoop_operator h2, convertLoop_operator h1,
      convertLoop_number hb]
    rfl

set_option maxRecDepth 20000 in
/-- C8 fails at the literals `a` of 310 digits `9` and `5`: `a` is a number
literal, the postfix sequence of `-a+5` is `[a, #, 5, +]`, and `std::stod`
throws `std::out_of_range` for `a`, so that the pipeline ends in that exception
instead of returning `(-a) + 5`; so it does for `5*-a` and `5--a`. -/
theorem C8_stod_throws_for_a_literal :
    isNumberLiteral hugeLiteral = true ∧ exactOps.stod hugeLiteral = none ∧
    (shuntingYard precedence (tokenize ("-" ++ hugeLiteral ++ "+" ++ "5"))).1 =
      .ok [hugeLiteral, "#", "5", "+"] ∧
    (Solve exactOps precedence ("-" ++ hugeLiteral ++ "+" ++ "5")).1 = .error .stodFailed ∧
    (Solve exactOps precedence ("5" ++ "*" ++ "-" ++ hugeLiteral)).1 = .error .stodFailed ∧
    (Solve exactOps precedence ("5" ++ "-" ++ "-" ++ hugeLiteral)).1 = .error .stodFailed := by
  decide

/-- C8 as amended (unary minus end to end): under every table of the program
and for all number literals `a`, `b`, the pipeline turns `-a+b` into
`[a, #, b, +]`, `a*-b` into `[a, b, #, *]` and `a--b` into `[a, b, #, -]`; it
returns `(-a) + b`, `a * (-b)` and `a - (-b)` when `std::stod` converts `a` and
`b`, and throws the exception of `std::stod` when it does not convert one of
them; in the exact reading `-3+5` gives 2, `3*-2` gives -6 and `2--3` gives 5. -/
theorem C8_unary_minus_end_to_end {V : Type} (D : DoubleOps V) (prec : Table)
    (a b : String) (hprec : tableOK prec = true)
    (ha : isNumberLiteral a = true) (hb : isNumberLiteral b = true) :
    ((shuntingYard prec (tokenize ("-" ++ a ++ "+" ++ b))).1 = .ok [a, "#", b, "+"] ∧
      (shuntingYard prec (tokenize (a ++ "*" ++ "-" ++ b))).1 = .ok [a, b, "#", "*"] ∧
      (shuntingYard prec (tokenize (a ++ "-" ++ "-" ++ b))).1 = .ok [a, b, "#", "-"]) ∧
    (∀ va vb, D.stod a = some va → D.stod b = some vb →
      (Solve D prec ("-" ++ a ++ "+" ++ b)).1 = .ok (D.add (D.neg va) vb) ∧
      (Solve D prec (a ++ "*" ++ "-" ++ b)).1 = .ok (D.mul va (D.neg vb)) ∧
      (Solve D prec (a ++ "-" ++ "-" ++ b)).1 = .ok (D.sub va (D.neg vb))) ∧
    (D.stod a = none ∨ D.stod b = none →
      (Solve D prec ("-" ++ a ++ "+" ++ b)).1 = .error .stodFailed ∧
      (Solve D prec (a ++ "*" ++ "-" ++ b)).1 = .error .stodFailed ∧
      (Solve D prec (a ++ "-" ++ "-" ++ b)).1 = .error .stodFailed) ∧
    ((Solve exactOps precedence "-3+5").1 = .ok (.int 2) ∧
      (Solve exactOps precedence "3*-2").1 = .ok (.int (-6)) ∧
      (Solve exactOps precedence "2--3").1 = .ok (.int 5)) := by
  have na := isNumber_of_literal ha
  have nb := isNumber_of_literal hb
  have e1 : (Solve D prec ("-" ++ a ++ "+" ++ b)).1 =
      calculation D precedence [a, "#", b, "+"] := by
    rw [(Solve_eq D hprec _).1, evaluate, tokenize_neg_sum ha hb, convert_neg_sum na nb]
  have e2 : (Solve D prec (a ++ "*" ++ "-" ++ b)).1 =
      calculation D precedence [a, b, "#", "*"] := by
    rw [(Solve_eq D hprec _).1, evaluate, tokenize_product_neg ha hb,
      convert_binary_neg (by decide) na nb]
  have e3 : (Solve D prec (a ++ "-" ++ "-" ++ b)).1 =
      calculation D precedence [a, b, "#", "-"] := by
    rw [(Solve_eq D hprec _).1, evaluate, tokenize_minus_neg ha hb,
      convert_binary_neg (by decide) na nb]
  refine ⟨⟨?_, ?_, ?_⟩, ?_, ?_, by decide, by decide, by decide⟩
  · rw [(shuntingYard_eq hprec _).1, tokenize_neg_sum ha hb, convert_neg_sum na nb]
  · rw [(shuntingYard_eq hprec _).1, tokenize_product_neg ha hb,
      convert_binary_neg (by decide) na nb]
  · rw [(shuntingYard_eq hprec _).1, tokenize_minus_neg ha hb,
      convert_binary_neg (by decide) na nb]
  · intro va vb hva hvb
    rw [e1, e2, e3]
    simp only [calculation]
    rw [calculationLoop_number D _ na hva, calculationLoop_neg,
      calculationLoop_number D _ nb hvb, calculationLoop_add,
      calculationLoop_number D _ na hva, calculationLoop_number D _ nb hvb,
      calculationLoop_neg, calculationLoop_mul,
      calculationLoop_number D _ na hva, calculationLoop_number D _ nb hvb,
      calculationLoop_neg, calculationLoop_sub]
    exact ⟨rfl, rfl, rfl⟩
  · intro hfail
    rw [e1, e2, e3]
    simp only [calculation]
    cases hva : D.stod a with
    | none =>
      rw [calculationLoop_number_fail D _ na hva, calculationLoop_number_fail D _ na hva,
        calculationLoop_number_fail D _ na hva]
      exact ⟨rfl, rfl, rfl⟩
    | some va =>
      cases hvb : D.stod b with
      | none =>
        rw [calculationLoop_number D _ na hva, calculationLoop_neg,
          calculationLoop_number_fail D _ nb hvb,
          calculationLoop_number D _ na hva, calculationLoop_number_fail D _ nb hvb,
          calculationLoop_number D _ na hva, calculationLoop_number_fail D _ nb hvb]
        exact ⟨rfl, rfl, rfl⟩
      | some vb =>
        rw [hva, hvb] at hfail
        simp at hfail

/-- The amended C8 at the initial table, the literals `3` and `5`, and the exact
reading. -/
theorem C8_unary_minus_end_to_end_witness :
    (tableOK precedence = true ∧ isNumberLiteral "3" = true ∧ isNumberLiteral "5" = true) ∧
    (Solve exactOps precedence ("3" ++ "-" ++ "-" ++ "5")).1 =
      .ok (exactOps.sub (.int 3) (exactOps.neg (.int 5))) :=
  ⟨by decide,
    ((C8_unary_minus_end_to_end exactOps precedence "3" "5"
      (by decide) (by decide) (by decide)).2.1 (.int 3) (.int 5) (by decide) (by decide)).2.2⟩

theorem spaceSafeFrom_weaken :
    ∀ (s : List Char) (prev : Option Char) (gap gap2 : Bool),
      spaceSafeFrom prev gap s = true → spaceSafeFrom none gap2 s = true := by
  intro s
  induction s with
  | nil => intro _ _ _ _; rfl
  | cons c rest ih =>
    intro prev gap gap2 h
    rw [spaceSafeFrom] at h ⊢
    by_cases hs : isspace c = true
    · simp only [hs, if_true] at h ⊢
      exact ih _ _ _ h
    · simp only [hs, Bool.false_eq_true, if_false, Bool.and_eq_true, gluesAcrossGap,
        Bool.not_false, true_and] at h ⊢
      exact h.2

theorem removeSpaces_cons_space {c : Char} (h : isspace c = true) (rest : List Char) :
    removeSpaces (c :: rest) = removeSpaces rest := by
  simp [removeSpaces, h]

theorem removeSpaces_cons_other {c : Char} (h : isspace c = false) (rest : List Char) :
    removeSpaces (c :: rest) = c :: removeSpaces rest := by
  simp [removeSpaces, h]

/-- After a gap, the next character that is no whitespace does not glue. -/
theorem spaceSafeFrom_head {x : Char} :
    ∀ (r : List Char), spaceSafeFrom (some x) true r = true →
      ∀ y l, removeSpaces r = y :: l → glues x y = false := by
  intro r
  induction r with
  | nil => intro _ y l h; simp [removeSpaces] at h
  | cons d r ih =>
    intro h y l hy
    rw [spaceSafeFrom] at h
    by_cases hs : isspace d = true
    · simp only [hs, if_true] at h
      rw [removeSpaces_cons_space hs] at hy
      exact ih h y l hy
    · simp only [hs, Bool.false_eq_true, if_false, Bool.and_eq_true, Bool.not_eq_true',
        gluesAcrossGap, Bool.true_and] at h
      simp only [Bool.not_eq_true] at hs
      rw [removeSpaces_cons_other hs] at hy
      cases hy
      exact h.1

/-- The inner loops of the tokenizer read the same characters with and without
the whitespace, when the input is safe. -/
theorem spaceSafe_run {p : Char → Bool} (hglue : ∀ x y, p x = true → p y = true → glues x y = true)
    (hsp : ∀ x, p x = true → isspace x = false) :
    ∀ (rest : List Char) (x : Char), p x = true → spaceSafeFrom (some x) false rest = true →
      (removeSpaces rest).takeWhile p = rest.takeWhile p ∧
      (removeSpaces rest).dropWhile p = removeSpaces (rest.dropWhile p) ∧
      spaceSafeFrom none false (rest.dropWhile p) = true := by
  intro rest
  induction rest with
  | nil => intro x _ _; simp [removeSpaces, spaceSafeFrom]
  | cons d r ih =>
    intro x hx h
    have hsafe := spaceSafeFrom_weaken _ _ _ false h
    rw [spaceSafeFrom] at h
    by_cases hs : isspace d = true
    · have hpd : p d = false := by
        cases hpd : p d with
        | false => rfl
        | true => rw [hsp d hpd] at hs; exact absurd hs (by simp)
      simp only [hs, if_true] at h
      have hhead := spaceSafeFrom_head r h
      rw [removeSpaces_cons_space hs]
      simp only [hpd, Bool.false_eq_true, not_false_eq_true, List.takeWhile_cons_of_neg,
        List.dropWhile_cons_of_neg, removeSpaces_cons_space hs]
      refine ⟨?_, ?_, hsafe⟩
      · cases hr : removeSpaces r with
        | nil => rfl
        | cons y l =>
          have hg := hhead y l hr
          have : p y = false := by
            cases hpy : p y with
            | false => rfl
            | true => rw [hglue x y hx hpy] at hg; exact absurd hg (by simp)
          simp [this]
      · cases hr : removeSpaces r with
        | nil => rfl
        | cons y l =>
          have hg := hhead y l hr
          have : p y = false := by
            cases hpy : p y with
            | false => rfl
            | true => rw [hglue x y hx hpy] at hg; exact absurd hg (by simp)
          simp [this]
    · simp only [hs, Bool.false_eq_true, if_false, Bool.and_eq_true] at h
      simp only [Bool.not_eq_true] at hs
      rw [removeSpaces_cons_other hs]
      by_cases hpd : p d = true
      · obtain ⟨e1, e2, e3⟩ := ih d hpd h.2
        simp only [hpd, List.takeWhile_cons_of_pos, List.dropWhile_cons_of_pos, e1, e2, e3,
          and_self]
      · rw [List.takeWhile_cons_of_neg hpd, List.takeWhile_cons_of_neg hpd,
          List.dropWhile_cons_of_neg hpd, List.dropWhile_cons_of_neg hpd,
          removeSpaces_cons_other hs]
        exact ⟨rfl, rfl, hsafe⟩

theorem spaceSafe_nextIsDigit {x : Char} (hx : numberChar x = true) (rest : List Char)
    (h : spaceSafeFrom (some x) false rest = true) :
    nextIsDigit (removeSpaces rest) = nextIsDigit rest := by
  cases rest with
  | nil => rfl
  | cons d r =>
    rw [spaceSafeFrom] at h
    by_cases hs : isspace d = true
    · simp only [hs, if_true] at h
      have hhead := spaceSafeFrom_head r h
      have hd : isdigit d = false := by
        cases hd : isdigit d with
        | false => rfl
        | true =>
          have : numberChar d = true := by simp [numberChar, hd]
          rw [numberChar_not_space this] at hs; exact absurd hs (by simp)
      rw [removeSpaces_cons_space hs]
      simp only [nextIsDigit, hd]
      cases hr : removeSpaces r with
      | nil => rfl
      | cons y l =>
        have hg := hhead y l hr
        simp only
        cases hy : isdigit y with
        | false => rfl
        | true =>
          have : glues x y = true := by
            have hny : numberChar y = true := by simp [numberChar, hy]
            simp only [glues, hx, hny, Bool.and_self, Bool.true_or]
          rw [this] at hg; exact absurd hg (by simp)
    · simp only [Bool.not_eq_true] at hs
      rw [removeSpaces_cons_other hs]
      rfl

theorem spaceSafe_nextIsStar (rest : List Char)
    (h : spaceSafeFrom (some '*') false rest = true) :
    nextIsStar (removeSpaces rest) = nextIsStar rest ∧
      (removeSpaces rest).tail = removeSpaces rest.tail ∨
    nextIsStar (removeSpaces rest) = false ∧ nextIsStar rest = false := by
  cases rest with
  | nil => left; exact ⟨rfl, rfl⟩
  | cons d r =>
    rw [spaceSafeFrom] at h
    by_cases hs : isspace d = true
    · right
      simp only [hs, if_true] at h
      have hhead := spaceSafeFrom_head r h
      have hd : (d == '*') = false := by
        cases hd : d == '*' with
        | false => rfl
        | true =>
          have : d = '*' := by simpa using hd
          subst this
          exact absurd hs (by decide)
      rw [removeSpaces_cons_space hs]
      simp only [nextIsStar, hd, and_true]
      cases hr : removeSpaces r with
      | nil => rfl
      | cons y l =>
        have hg := hhead y l hr
        simp only
        cases hy : y == '*' with
        | false => rfl
        | true =>
          have : y = '*' := by simpa using hy
          subst this
          exact absurd hg (by decide)
    · left
      simp only [Bool.not_eq_true] at hs
      rw [removeSpaces_cons_other hs]
      exact ⟨rfl, rfl⟩

theorem spaceSafeFrom_tail (prev : Option Char) (gap : Bool) (rest : List Char)
    (h : spaceSafeFrom prev gap rest = true) : spaceSafeFrom none false rest.tail = true := by
  cases rest with
  | nil => rfl
  | cons d r =>
    rw [spaceSafeFrom] at h
    by_cases hs : isspace d = true
    · simp only [hs, if_true] at h
      exact spaceSafeFrom_weaken _ _ _ _ h
    · simp only [hs, Bool.false_eq_true, if_false, Bool.and_eq_true] at h
      exact spaceSafeFrom_weaken _ _ _ _ h.2

/-- On a safe input the tokenizer gives the tokens of the input without its
whitespace. -/
theorem tokensFrom_removeSpaces :
    ∀ (n : Nat) (s : List Char) (b : Bool), s.length ≤ n → spaceSafeFrom none false s = true →
      tokensFrom s b = tokensFrom (removeSpaces s) b := by
  intro n
  induction n with
  | zero =>
    intro s b hs _
    have : s = [] := List.length_eq_zero.1 (Nat.le_zero.1 hs)
    subst this; rfl
  | succ n ih =>
    intro s b hs h
    cases s with
    | nil => rfl
    | cons c rest =>
      simp only [List.length_cons, Nat.add_le_add_iff_right] at hs
      have hd : ∀ p : Char → Bool, (rest.dropWhile p).length ≤ n :=
        fun p => le_trans (List.dropWhile_suffix p).length_le hs
      rw [spaceSafeFrom] at h
      by_cases hsp : isspace c = true
      · simp only [hsp, if_true] at h
        rw [removeSpaces_cons_space hsp, tokensFrom_cons, if_pos hsp]
        exact ih rest b hs (spaceSafeFrom_weaken _ _ _ _ h)
      · simp only [hsp, Bool.false_eq_true, if_false, Bool.and_eq_true] at h
        have S := h.2
        have hrest := spaceSafeFrom_weaken _ _ _ false S
        simp only [Bool.not_eq_true] at hsp
        have r0 := fun b => ih rest b hs hrest
        rw [removeSpaces_cons_other hsp, tokensFrom_cons c rest,
          tokensFrom_cons c (removeSpaces rest)]
        have c1eq : (isdigit c || (c == '.' && nextIsDigit (removeSpaces rest))) =
            (isdigit c || (c == '.' && nextIsDigit rest)) := by
          by_cases hdot : (c == '.') = true
          · have hnc : numberChar c = true := by simp [numberChar, hdot]
            rw [spaceSafe_nextIsDigit hnc rest S]
          · simp only [Bool.not_eq_true] at hdot
            simp only [hdot, Bool.false_and]
        simp only [hsp, Bool.false_eq_true, if_false, c1eq]
        by_cases c1 : (isdigit c || (c == '.' && nextIsDigit rest)) = true
        · have hnc : numberChar c = true := by
            simp only [numberChar, Bool.or_eq_true, Bool.and_eq_true] at c1 ⊢
            rcases c1 with c1 | ⟨c1, _⟩
            · exact Or.inl c1
            · exact Or.inr c1
          obtain ⟨e1, e2, e3⟩ := spaceSafe_run (p := numberChar)
            (fun x y hx hy => by simp only [glues, hx, hy, Bool.and_self, Bool.true_or])
            (fun x hx => numberChar_not_space hx) rest c hnc S
          simp only [c1, if_true, e1, e2]
          rw [ih _ false (hd numberChar) e3]
        · simp only [c1, Bool.false_eq_true, if_false]
          by_cases c2 : isalpha c = true
          · obtain ⟨e1, e2, e3⟩ := spaceSafe_run (p := isalpha)
              (fun x y hx hy => by simp only [glues, hx, hy, Bool.and_self, Bool.true_or,
                Bool.or_true])
              (fun x hx => isalpha_not_space hx) rest c c2 S
            simp only [c2, if_true, e1, e2]
            rw [ih _ false (hd isalpha) e3]
          · simp only [c2, Bool.false_eq_true, if_false]
            by_cases c6 : (c == '*') = true
            · have : c = '*' := by simpa using c6
              subst this
              have htail := ih rest.tail true (le_trans (by simp) hs)
                (spaceSafeFrom_tail _ _ _ S)
              rcases spaceSafe_nextIsStar rest S with ⟨e1, e2⟩ | ⟨e1, e2⟩
              · simp only [e1, e2, htail, r0]
              · simp only [e1, e2, r0, Bool.false_eq_true, if_false]
            · simp only [r0, c6, Bool.false_eq_true, if_false]

/-- C10 fails at `1 2` and `12`: the two expressions are the same once the
whitespace is removed, and their token sequences differ. -/
theorem C10_space_separates_numbers :
    removeSpaces "1 2".data = removeSpaces "12".data ∧
      tokenize "1 2" = ["1", "2"] ∧ tokenize "12" = ["12"] ∧
      tokenize "1 2" ≠ tokenize "12" := by
  decide

/-- C10 as amended: two expressions that are the same once all whitespace is
removed, and in neither of which whitespace stands between two characters that
are read into one token when adjacent (two characters of a number, two letters,
or the two halves of `**`), have the same token sequence. -/
theorem C10_whitespace_between_tokens (s1 s2 : String)
    (h1 : spaceSafe s1.data = true) (h2 : spaceSafe s2.data = true)
    (h : removeSpaces s1.data = removeSpaces s2.data) :
    tokenize s1 = tokenize s2 := by
  rw [tokenize_eq, tokenize_eq, tokensFrom_removeSpaces _ _ true le_rfl h1,
    tokensFrom_removeSpaces _ _ true le_rfl h2, h]

/-- The amended C10 at two spellings of `12*(3 - sin(4))`. -/
theorem C10_whitespace_between_tokens_witness :
    (spaceSafe " 12 *( 3-sin (4))".data = true ∧ spaceSafe "12*(3 - sin(4)) ".data = true ∧
      removeSpaces " 12 *( 3-sin (4))".data = removeSpaces "12*(3 - sin(4)) ".data) ∧
    tokenize " 12 *( 3-sin (4))" = tokenize "12*(3 - sin(4)) " :=
  ⟨by decide,
    C10_whitespace_between_tokens " 12 *( 3-sin (4))" "12*(3 - sin(4)) "
      (by decide) (by decide) (by decide)⟩

theorem convert_eq (tokens : List String) :
    convert tokens = drainResult (convertLoop tokens [] []) := by
  unfold convert drainResult
  rfl

theorem paren_class {t : String} (h : (t == "(") = true ∨ (t == ")") = true) :
    isNumber t = false ∧ isConstant t = false ∧ isFunction t = false ∧
      isOperator precedence t = false := by
  rcases h with h | h
  · have : t = "(" := by simpa using h
    subst this
    decide
  · have : t = ")" := by simpa using h
    subst this
    decide

theorem count_paren_cons {t : String} (h : (t == "(") = false) (st : List String) :
    (t :: st).count "(" = st.count "(" := by
  rw [List.count_cons]; simp [h]

theorem count_paren_dropWhile (token : String) :
    ∀ st : List String, (st.dropWhile (popsBefore token)).count "(" = st.count "(" := by
  intro st
  induction st with
  | nil => rfl
  | cons top st ih =>
    by_cases hp : popsBefore token top = true
    · have hne : (top == "(") = false := by
        simp only [popsBefore, bne, Bool.and_eq_true, Bool.not_eq_true'] at hp
        exact hp.1
      rw [List.dropWhile_cons_of_pos hp, ih, count_paren_cons hne]
    · rw [List.dropWhile_cons_of_neg hp]

theorem drainStack_balanced :
    ∀ (st out : List String),
      (st.count "(" = 0 → drainStack st out = .ok (out ++ st)) ∧
      (st.count "(" ≠ 0 → drainStack st out = .error .mismatchedParentheses) := by
  intro st
  induction st with
  | nil => intro out; simp [drainStack]
  | cons top st ih =>
    intro out
    rw [drainStack]
    by_cases hp : (top == "(") = true
    · have : top = "(" := by simpa using hp
      subst this
      simp
    · simp only [Bool.not_eq_true] at hp
      simp only [hp, Bool.false_eq_true, if_false, count_paren_cons hp]
      obtain ⟨i1, i2⟩ := ih (out ++ [top])
      refine ⟨fun h => ?_, i2⟩
      rw [i1 h]; simp

theorem popToParen_balanced :
    ∀ (st out : List String),
      (st.count "(" = 0 → popToParen st out = none) ∧
      (st.count "(" ≠ 0 → ∃ st2 out2, popToParen st out = some (st2, out2) ∧
        st2.count "(" = st.count "(" - 1) := by
  intro st
  induction st with
  | nil => intro out; simp [popToParen]
  | cons top st ih =>
    intro out
    rw [popToParen]
    by_cases hp : (top == "(") = true
    · have : top = "(" := by simpa using hp
      subst this
      simp
    · simp only [Bool.not_eq_true] at hp
      simp only [hp, Bool.false_eq_true, if_false, count_paren_cons hp]
      exact ih (out ++ [top])

/-- The converter throws "Mismatched parentheses" exactly on the sequences whose
parentheses are not balanced; `depth` is the number of `(` on the stack. -/
theorem convertLoop_balanced :
    ∀ (tokens out st : List String),
      (balancedFrom (st.count "(") tokens = true →
        ∃ rpn, drainResult (convertLoop tokens out st) = .ok rpn) ∧
      (balancedFrom (st.count "(") tokens = false →
        drainResult (convertLoop tokens out st) = .error .mismatchedParentheses) := by
  intro tokens
  induction tokens with
  | nil =>
    intro out st
    obtain ⟨d1, d2⟩ := drainStack_balanced st out
    simp only [balancedFrom, beq_iff_eq, convertLoop, drainResult, beq_eq_false_iff_ne]
    exact ⟨fun h => ⟨_, d1 h⟩, d2⟩
  | cons t ts ih =>
    intro out st
    rw [convertLoop, balancedFrom]
    by_cases ho : (t == "(") = true
    · obtain ⟨c1, c2, c3, c4⟩ := paren_class (Or.inl ho)
      have : t = "(" := by simpa using ho
      subst this
      simp only [c1, c2, c3, c4, Bool.or_self, Bool.false_eq_true, if_false, ho, if_true]
      have := ih out ("(" :: st)
      simpa using this
    · simp only [Bool.not_eq_true] at ho
      simp only [ho, Bool.false_eq_true, if_false]
      by_cases hc : (t == ")") = true
      · obtain ⟨c1, c2, c3, c4⟩ := paren_class (Or.inr hc)
        simp only [c1, c2, c3, c4, Bool.or_self, Bool.false_eq_true, if_false, hc, if_true]
        obtain ⟨p1, p2⟩ := popToParen_balanced st out
        by_cases hz : st.count "(" = 0
        · simp [p1 hz, hz, drainResult]
        · obtain ⟨st2, out2, e, hcount⟩ := p2 hz
          have hne : (List.count "(" st != 0) = true := by simpa using hz
          simp only [e, hne, Bool.true_and, ← hcount]
          cases st2 with
          | nil => exact ih out2 []
          | cons top st2 =>
            simp only
            by_cases hf : isFunction top = true
            · have hnp : (top == "(") = false := by
                cases hnp : top == "(" with
                | false => rfl
                | true => rw [(paren_class (Or.inl hnp)).2.2.1] at hf; exact absurd hf (by simp)
              simp only [hf, if_true, count_paren_cons hnp]
              exact ih _ st2
            · simp only [hf, if_false]
              exact ih out2 (top :: st2)
      · simp only [Bool.not_eq_true] at hc
        simp only [hc, Bool.false_eq_true, if_false]
        split_ifs with h1 h2 h3
        · exact ih _ st
        · have := ih out (t :: st)
          rw [count_paren_cons ho] at this
          exact this
        · have := ih (out ++ st.takeWhile (popsBefore t)) (t :: st.dropWhile (popsBefore t))
          rw [count_paren_cons ho, count_paren_dropWhile] at this
          exact this
        · exact ih out st

/-- C6 (mismatched parentheses): under every table of the program and for every
token sequence, `shuntingYard` throws "Mismatched parentheses" if and only if
the parentheses of the sequence are not balanced (a `)` without an open `(`, or
a `(` that is never closed), and returns a sequence otherwise; the pipeline
throws it for `(1+2` and for `1+2)`. -/
theorem C6_mismatched_parentheses (prec : Table) (tokens : List String)
    (hprec : tableOK prec = true) :
    ((shuntingYard prec tokens).1 = .error .mismatchedParentheses ↔ balanced tokens = false) ∧
    ((balanced tokens = true ∧ ∃ rpn, (shuntingYard prec tokens).1 = .ok rpn) ∨
      (balanced tokens = false ∧
        (shuntingYard prec tokens).1 = .error .mismatchedParentheses)) ∧
    (Solve exactOps precedence "(1+2").1 = .error .mismatchedParentheses ∧
    (Solve exactOps precedence "1+2)").1 = .error .mismatchedParentheses := by
  rw [(shuntingYard_eq hprec tokens).1, convert_eq]
  obtain ⟨b1, b2⟩ := convertLoop_balanced tokens [] []
  simp only [List.count_nil] at b1 b2
  refine ⟨?_, ?_, by decide, by decide⟩
  · constructor
    · intro h
      cases hb : balanced tokens with
      | false => rfl
      | true =>
        obtain ⟨rpn, hr⟩ := b1 hb
        rw [hr] at h
        exact absurd h (by simp)
    · exact b2
  · cases hb : balanced tokens with
    | false => exact Or.inr ⟨rfl, b2 hb⟩
    | true => exact Or.inl ⟨rfl, b1 hb⟩

/-- C6 at the initial table and the tokens of `(2*(3+4)`. -/
theorem C6_mismatched_parentheses_witness :
    tableOK precedence = true ∧
    ((shuntingYard precedence ["(", "2", "*", "(", "3", "+", "4", ")"]).1 =
        .error .mismatchedParentheses ↔
      balanced ["(", "2", "*", "(", "3", "+", "4", ")"] = false) :=
  ⟨by decide,
    (C6_mismatched_parentheses precedence ["(", "2", "*", "(", "3", "+", "4", ")"]
      (by decide)).1⟩

theorem stackToken_output {t : String} (h : stackToken t = true) (hp : (t == "(") = false) :
    outputToken t = true := by
  simp only [stackToken, hp, Bool.false_or, Bool.or_eq_true] at h
  simp only [outputToken, Bool.or_eq_true]
  rcases h with h | h
  · exact Or.inl (Or.inr h)
  · exact Or.inr h

theorem popToParen_outputs :
    ∀ (st out : List String) {st2 out2 : List String},
      popToParen st out = some (st2, out2) →
      ∀ t ∈ out2, t ∈ out ∨ (t ∈ st ∧ (t == "(") = false) := by
  intro st
  induction st with
  | nil => intro out st2 out2 h; simp [popToParen] at h
  | cons top st ih =>
    intro out st2 out2 h t ht
    rw [popToParen] at h
    by_cases hp : (top == "(") = true
    · simp only [hp, if_true, Option.some.injEq, Prod.mk.injEq] at h
      obtain ⟨_, rfl⟩ := h
      exact Or.inl ht
    · simp only [hp, if_false] at h
      simp only [Bool.not_eq_true] at hp
      rcases ih _ h t ht with h1 | ⟨h1, h2⟩
      · rcases List.mem_append.1 h1 with h1 | h1
        · exact Or.inl h1
        · simp only [List.mem_singleton] at h1
          subst h1
          exact Or.inr ⟨List.mem_cons_self _ _, hp⟩
      · exact Or.inr ⟨List.mem_cons_of_mem _ h1, h2⟩

/-- Every token that the converter puts out is one the evaluator has a rule
for. -/
theorem convertLoop_outputs :
    ∀ (tokens out st : List String), (∀ t ∈ out, outputToken t = true) →
      (∀ t ∈ st, stackToken t = true) →
      ∀ rpn, drainResult (convertLoop tokens out st) = .ok rpn →
        ∀ t ∈ rpn, outputToken t = true := by
  intro tokens
  induction tokens with
  | nil =>
    intro out st hout hst rpn h t ht
    simp only [convertLoop, drainResult] at h
    obtain ⟨d1, d2⟩ := drainStack_balanced st out
    by_cases hz : st.count "(" = 0
    · rw [d1 hz] at h
      simp only [Except.ok.injEq] at h
      subst h
      rcases List.mem_append.1 ht with ht | ht
      · exact hout t ht
      · refine stackToken_output (hst t ht) ?_
        cases hp : t == "(" with
        | false => rfl
        | true =>
          have : t = "(" := by simpa using hp
          subst this
          exact absurd (List.count_eq_zero.1 hz) (by simpa using ht)
    · rw [d2 hz] at h
      exact absurd h (by simp)
  | cons tok ts ih =>
    intro out st hout hst rpn h
    rw [convertLoop] at h
    have push : ∀ x, stackToken x = true → ∀ t ∈ x :: st, stackToken t = true := by
      intro x hx t ht
      rcases List.mem_cons.1 ht with rfl | ht
      · exact hx
      · exact hst t ht
    split_ifs at h with h1 h2 h3 h4 h5
    · refine ih _ _ ?_ hst rpn h
      intro t ht
      rcases List.mem_append.1 ht with ht | ht
      · exact hout t ht
      · simp only [List.mem_singleton] at ht
        subst ht
        simp only [Bool.or_eq_true] at h1
        simp only [outputToken, Bool.or_eq_true]
        rcases h1 with h1 | h1
        · exact Or.inl (Or.inl (Or.inl h1))
        · exact Or.inl (Or.inl (Or.inr h1))
    · exact ih _ _ hout (push tok (by simp [stackToken, h2])) rpn h
    · refine ih _ _ ?_ ?_ rpn h
      · intro t ht
        rcases List.mem_append.1 ht with ht | ht
        · exact hout t ht
        · have hp := List.mem_takeWhile_imp ht
          have hne : (t == "(") = false := by
            simp only [popsBefore, bne, Bool.and_eq_true, Bool.not_eq_true'] at hp
            exact hp.1
          exact stackToken_output (hst t (List.takeWhile_subset _ ht)) hne
      · intro t ht
        rcases List.mem_cons.1 ht with rfl | ht
        · simp [stackToken, h3]
        · exact hst t (List.dropWhile_subset _ ht)
    · exact ih _ _ hout (push tok (by simp [stackToken, h4])) rpn h
    · cases hpp : popToParen st out with
      | none => rw [hpp] at h; simp [drainResult] at h
      | some r =>
        obtain ⟨st2, out2⟩ := r
        rw [hpp] at h
        have hsub := popToParen_subset st out hpp
        have hout2 : ∀ t ∈ out2, outputToken t = true := by
          intro t ht
          rcases popToParen_outputs st out hpp t ht with h1 | ⟨h1, h2⟩
          · exact hout t h1
          · exact stackToken_output (hst t h1) h2
        cases st2 with
        | nil => exact ih _ _ hout2 (by simp) rpn h
        | cons top st2 =>
          simp only at h
          split_ifs at h with h6
          · refine ih _ _ ?_ (fun t ht => hst t (hsub t (List.mem_cons_of_mem _ ht))) rpn h
            intro t ht
            rcases List.mem_append.1 ht with ht | ht
            · exact hout2 t ht
            · simp only [List.mem_singleton] at ht
              subst ht
              simp [outputToken, h6]
          · exact ih _ _ hout2 (fun t ht => hst t (hsub t ht)) rpn h
    · exact ih _ _ hout hst rpn h

theorem calculationStep_known {V : Type} (D : DoubleOps V) {t : String}
    (h : outputToken t = true) (vs : List V) (tok : String) :
    calculationStep D precedence t vs ≠ .error (.unknownToken tok) := by
  cases h1 : isNumber t with
  | true =>
    simp only [calculationStep, h1, if_true]
    cases D.stod t <;> simp
  | false =>
    cases h2 : t == "pi" with
    | true => simp [calculationStep, h1, h2]
    | false =>
      cases h3 : t == "e" with
      | true => simp [calculationStep, h1, h2, h3]
      | false =>
        cases h4 : isFunction t with
        | true =>
          simp only [calculationStep, h1, h2, h3, h4, if_true, Bool.false_eq_true, if_false]
          cases vs with
          | nil => simp
          | cons val vs2 =>
            simp only
            split_ifs <;> simp
        | false =>
          cases h5 : isOperator precedence t with
          | true =>
            simp only [calculationStep, h1, h2, h3, h4, h5, if_true, Bool.false_eq_true,
              if_false]
            cases h6 : t == "#" with
            | true =>
              simp only [if_true]
              cases vs with
              | nil => simp
              | cons val vs2 => simp
            | false =>
              simp only [Bool.false_eq_true, if_false]
              cases vs with
              | nil => simp
              | cons val2 vs2 =>
                cases vs2 with
                | nil => simp
                | cons val1 vs3 =>
                  simp only
                  split_ifs <;> simp
          | false =>
            simp [outputToken, isConstant, h1, h2, h3, h4, h5] at h

theorem calculationLoop_known {V : Type} (D : DoubleOps V) (tok : String) :
    ∀ (rpn : List String) (vs : List V), (∀ t ∈ rpn, outputToken t = true) →
      calculationLoop D precedence rpn vs ≠ .error (.unknownToken tok) := by
  intro rpn
  induction rpn with
  | nil => intro vs _; simp [calculationLoop]
  | cons t rpn ih =>
    intro vs h
    have hstep := calculationStep_known D (h t (List.mem_cons_self _ _)) vs tok
    simp only [calculationLoop]
    cases hs : calculationStep D precedence t vs with
    | error err =>
      rw [hs] at hstep
      simpa using hstep
    | ok vs2 => exact ih vs2 (fun x hx => h x (List.mem_cons_of_mem _ hx))

/-- C9 (round-trip sanity): under every table of the program, every token of a
sequence that `shuntingYard` returns is a number, a constant, a function name or
an operator, and no parenthesis; `calculation` on that sequence, with the table
as `shuntingYard` leaves it, does not throw "Unknown token". -/
theorem C9_round_trip_sanity {V : Type} (D : DoubleOps V) (prec : Table)
    (tokens rpn : List String) (hprec : tableOK prec = true)
    (h : (shuntingYard prec tokens).1 = .ok rpn) :
    (∀ t ∈ rpn, (isNumber t || isConstant t || isFunction t || isOperator precedence t) = true ∧
      t ≠ "(" ∧ t ≠ ")") ∧
    (∀ tok, calculation D (shuntingYard prec tokens).2 rpn ≠ .error (.unknownToken tok)) := by
  obtain ⟨e, hprec2⟩ := shuntingYard_eq hprec tokens
  rw [e, convert_eq] at h
  have hout := convertLoop_outputs tokens [] [] (by simp) (by simp) rpn h
  constructor
  · intro t ht
    have ho := hout t ht
    refine ⟨ho, ?_, ?_⟩
    · rintro rfl; exact absurd ho (by decide)
    · rintro rfl; exact absurd ho (by decide)
  · intro tok
    rw [calculation_table D hprec2]
    have hl := calculationLoop_known D tok rpn [] hout
    simp only [calculation]
    cases hc : calculationLoop D precedence rpn [] with
    | error err =>
      rw [hc] at hl
      simpa using hl
    | ok vs =>
      cases vs with
      | nil => simp
      | cons v vs =>
        cases vs with
        | nil => simp
        | cons w ws => simp

/-- C9 at the initial table, the exact reading and the tokens of
`sin(1)+foo$2`, where `foo` and `$` are dropped by the converter. -/
theorem C9_round_trip_sanity_witness :
    (tableOK precedence = true ∧
      (shuntingYard precedence ["sin", "(", "1", ")", "+", "foo", "$", "2"]).1 =
        .ok ["1", "sin", "2", "+"]) ∧
    (∀ tok, calculation exactOps
        (shuntingYard precedence ["sin", "(", "1", ")", "+", "foo", "$", "2"]).2
        ["1", "sin", "2", "+"] ≠ .error (.unknownToken tok)) :=
  ⟨by decide,
    (C9_round_trip_sanity exactOps precedence ["sin", "(", "1", ")", "+", "foo", "$", "2"]
      ["1", "sin", "2", "+"] (by decide) (by decide)).2⟩

theorem tokensFrom_spaces :
    ∀ (s : List Char) (b : Bool), (∀ c ∈ s, isspace c = true) → tokensFrom s b = [] := by
  intro s
  induction s with
  | nil => intro b _; exact tokensFrom_nil b
  | cons c rest ih =>
    intro b h
    rw [tokensFrom_cons, if_pos (h c (List.mem_cons_self _ _))]
    exact ih b (fun d hd => h d (List.mem_cons_of_mem _ hd))

/-- C11 (empty input is an error): under every table of the program and every
reading of the arithmetic, for an input that is empty or consists of whitespace
only, `tokenize` returns the empty sequence, `shuntingYard` returns the empty
sequence for it, and the pipeline throws "Invalid expression" instead of
returning a number. -/
theorem C11_empty_input_is_an_error {V : Type} (D : DoubleOps V) (prec : Table)
    (expression : String) (hprec : tableOK prec = true)
    (hws : ∀ c ∈ expression.data, isspace c = true) :
    tokenize expression = [] ∧
    (shuntingYard prec (tokenize expression)).1 = .ok [] ∧
    (Solve D prec expression).1 = .error .invalidExpression := by
  have ht : tokenize expression = [] := by
    rw [tokenize_eq]; exact tokensFrom_spaces _ true hws
  refine ⟨ht, ?_, ?_⟩
  · rw [(shuntingYard_eq hprec _).1, ht]; rfl
  · rw [(Solve_eq D hprec _).1, evaluate, ht]; rfl

/-- C11 at the initial table, the exact reading and an input of a space, a tab
and a space. -/
theorem C11_empty_input_is_an_error_witness :
    (tableOK precedence = true ∧ ∀ c ∈ " \t ".data, isspace c = true) ∧
    (Solve exactOps precedence " \t ").1 = .error .invalidExpression :=
  ⟨by decide,
    (C11_empty_input_is_an_error exactOps precedence " \t " (by decide) (by decide)).2.2⟩

theorem tokenize_power_neg {a b : String} (ha : isNumberLiteral a = true)
    (hb : isNumberLiteral b = true) :
    tokenize (a ++ "**" ++ "-" ++ b) = [a, "**", "#", b] := by
  rw [tokenize_eq]
  have e : (a ++ "**" ++ "-" ++ b).data = a.data ++ '*' :: '*' :: '-' :: b.data := by
    simp [String.data_append]
  rw [e, tokensFrom_literal ha _ (tail_star _), tokensFrom_power, tokensFrom_minus,
    tokensFrom_literal_end hb]
  rfl

theorem convert_power_neg {a b : String} (ha : isNumber a = true) (hb : isNumber b = true) :
    convert [a, "**", "#", b] = .ok [a, "**", b, "#"] := by
  have h1 : isOperator precedence "**" = true := by decide
  have h2 : isOperator precedence "#" = true := by decide
  rw [convert, convertLoop_number ha, convertLoop_operator h1, convertLoop_operator h2,
    convertLoop_number hb]
  rfl

set_option maxRecDepth 20000 in
/-- C20 fails at the literals `a` of 310 digits `9` and `3`: `a` is a number
literal, the postfix sequence of `a**-3` is `[a, **, 3, #]`, and `calculation`
on it ends in the `std::out_of_range` that `std::stod` throws for `a`, which is
not "Invalid expression". -/
theorem C20_stod_throws_for_a_literal :
    isNumberLiteral hugeLiteral = true ∧ exactOps.stod hugeLiteral = none ∧
    (shuntingYard precedence (tokenize (hugeLiteral ++ "**" ++ "-" ++ "3"))).1 =
      .ok [hugeLiteral, "**", "3", "#"] ∧
    calculation exactOps precedence [hugeLiteral, "**", "3", "#"] = .error .stodFailed ∧
    (Solve exactOps precedence (hugeLiteral ++ "**" ++ "-" ++ "3")).1 = .error .stodFailed ∧
    Err.what .stodFailed = "stod" ∧ Err.what .invalidExpression = "Invalid expression" := by
  decide

/-- C20 as amended (unary minus after the power operator): under every table of
the program and for all number literals `a`, `b`, `a**-b` is tokenized to
`[a, **, #, b]`; the rank 4 of `**` is above the rank 3 of `#`, so that
`shuntingYard` pops `**` before it pushes `#` and returns `[a, **, b, #]`; on
that sequence `calculation` throws "Invalid expression" when `std::stod`
converts `a`, and the exception of `std::stod` when it does not, so that it
never returns a number; the pipeline throws "Invalid expression" for `2**-3`. -/
theorem C20_unary_minus_after_power {V : Type} (D : DoubleOps V) (prec : Table)
    (a b : String) (hprec : tableOK prec = true)
    (ha : isNumberLiteral a = true) (hb : isNumberLiteral b = true) :
    tokenize (a ++ "**" ++ "-" ++ b) = [a, "**", "#", b] ∧
    (rank "#" = 3 ∧ rank "**" = 4 ∧ popsBefore "#" "**" = true) ∧
    (popOperators "#" prec ["**"] [a]).1 = .ok ([], [a, "**"]) ∧
    (shuntingYard prec [a, "**", "#", b]).1 = .ok [a, "**", b, "#"] ∧
    (∀ va, D.stod a = some va →
      calculation D prec [a, "**", b, "#"] = .error .invalidExpression ∧
      (Solve D prec (a ++ "**" ++ "-" ++ b)).1 = .error .invalidExpression) ∧
    (D.stod a = none →
      calculation D prec [a, "**", b, "#"] = .error .stodFailed ∧
      (Solve D prec (a ++ "**" ++ "-" ++ b)).1 = .error .stodFailed) ∧
    (Solve exactOps precedence "2**-3").1 = .error .invalidExpression := by
  have na := isNumber_of_literal ha
  have nb := isNumber_of_literal hb
  have e1 : (Solve D prec (a ++ "**" ++ "-" ++ b)).1 =
      calculation D precedence [a, "**", b, "#"] := by
    rw [(Solve_eq D hprec _).1, evaluate, tokenize_power_neg ha hb, convert_power_neg na nb]
  refine ⟨tokenize_power_neg ha hb, by decide, ?_, ?_, ?_, ?_, by decide⟩
  · rw [(popOperators_eq (by decide) ["**"] prec [a] hprec (by decide)).1]
    rfl
  · rw [(shuntingYard_eq hprec _).1, convert_power_neg na nb]
  · intro va hva
    rw [e1, calculation_table D hprec]
    simp only [calculation]
    rw [calculationLoop_number D _ na hva]
    exact ⟨rfl, rfl⟩
  · intro hva
    rw [e1, calculation_table D hprec]
    simp only [calculation]
    rw [calculationLoop_number_fail D _ na hva]
    exact ⟨rfl, rfl⟩

/-- The amended C20 at the initial table, the exact reading and the literals
`10` and `.5`. -/
theorem C20_unary_minus_after_power_witness :
    (tableOK precedence = true ∧ isNumberLiteral "10" = true ∧ isNumberLiteral ".5" = true) ∧
    (Solve exactOps precedence ("10" ++ "**" ++ "-" ++ ".5")).1 = .error .invalidExpression :=
  ⟨by decide,
    ((C20_unary_minus_after_power exactOps precedence "10" ".5" (by decide)
      (by decide) (by decide)).2.2.2.2.1 (.int 10) (by decide)).2⟩

theorem rightAssociative_true_iff (token : String) :
    mapAt rightAssociative token = some true ↔ token = "#" ∨ token = "**" := by
  constructor
  · intro h
    by_contra hc
    simp only [not_or] at hc
    have e5 : (token == "#") = false := by simpa using hc.1
    have e6 : (token == "**") = false := by simpa using hc.2
    simp only [mapAt, rightAssociative, List.lookup_cons, e5, e6, List.lookup_nil] at h
    revert h
    cases token == "+" <;> cases token == "-" <;> cases token == "*" <;>
      cases token == "/" <;> simp
  · rintro (rfl | rfl) <;> rfl

/-- C15 fails at `#`: the associativity table has `#` as right-associative, and
the loop of rule 3 for a second `#` leaves the first `#` on the stack. -/
theorem C15_negation_is_right_associative :
    mapAt rightAssociative "#" = some true ∧
    popOperators "#" precedence ["#"] [] = (.ok (["#"], []), precedence) := by
  decide

/-- C15 as amended: `+ - * /` are left-associative, and `#` and `**` are the
right-associative operators; under every table of the program and for a number
token `n`, `shuntingYard` on `[#, #, n]` pushes the second `#` on the first
without popping it, and returns `[n, #, #]`. -/
theorem C15_associativity_table (prec : Table) (n : String) (out : List String)
    (hprec : tableOK prec = true) (hn : isNumber n = true) :
    (mapAt rightAssociative "+" = some false ∧ mapAt rightAssociative "-" = some false ∧
      mapAt rightAssociative "*" = some false ∧ mapAt rightAssociative "/" = some false) ∧
    (∀ token, mapAt rightAssociative token = some true ↔ token = "#" ∨ token = "**") ∧
    (popOperators "#" prec ["#"] out).1 = .ok (["#"], out) ∧
    (shuntingYard prec ["#", "#", n]).1 = .ok [n, "#", "#"] := by
  refine ⟨by decide, rightAssociative_true_iff, ?_, ?_⟩
  · rw [(popOperators_eq (by decide) ["#"] prec out hprec (by decide)).1]
    have : popsBefore "#" "#" = false := by decide
    simp [this]
  · have h1 : isOperator precedence "#" = true := by decide
    rw [(shuntingYard_eq hprec _).1, convert, convertLoop_operator h1, convertLoop_operator h1,
      convertLoop_number hn]
    rfl

/-- The amended C15 at the initial table and the tokens of `--7`. -/
theorem C15_associativity_table_witness :
    (tableOK precedence = true ∧ isNumber "7" = true) ∧
    (shuntingYard precedence ["#", "#", "7"]).1 = .ok ["7", "#", "#"] :=
  ⟨by decide, (C15_associativity_table precedence "7" [] (by decide) (by decide)).2.2.2⟩

/-- C16 at the tokens `[sin, +, 1]` and the initial table: when `+` arrives with
`sin` on top of the stack, `precedence[top]` inserts the key `sin` with the
value 0, so that the table after `shuntingYard` differs from the table before
it and `isOperator` holds for `sin` afterwards; the pipeline leaves the same
table for `sin 0 + 1`.  The associativity table is a constant. -/
theorem C16_precedence_gains_a_key :
    isOperator precedence "sin" = false ∧
    mapIndex precedence "sin" = (0, precedence ++ [("sin", 0)]) ∧
    shuntingYard precedence ["sin", "+", "1"] =
      (.ok ["1", "+", "sin"], precedence ++ [("sin", 0)]) ∧
    isOperator (shuntingYard precedence ["sin", "+", "1"]).2 "sin" = true ∧
    (shuntingYard precedence ["sin", "+", "1"]).2 ≠ precedence ∧
    (Solve exactOps precedence "sin 0 + 1").2 = precedence ++ [("sin", 0)] := by
  decide

theorem minusAfter_cons (b : Bool) (t : String) (toks : List String) :
    minusAfter b (t :: toks) = minusAfter (!endsOperand t) toks := by
  cases toks with
  | nil => cases h : endsOperand t <;> simp [minusAfter, h]
  | cons u us =>
    simp only [minusAfter, List.getLast?_cons_cons,
      List.getLast?_eq_getLast _ (List.cons_ne_nil u us)]

theorem takeWhile_append_minus {p : Char → Bool} (hp : p '-' = false) (l post : List Char) :
    (l ++ '-' :: post).takeWhile p = l.takeWhile p ∧
      (l ++ '-' :: post).dropWhile p = l.dropWhile p ++ '-' :: post := by
  induction l with
  | nil => simp [hp]
  | cons d l ih =>
    by_cases hd : p d = true
    · simp [hd, ih]
    · simp [hd]

theorem nextIs_append_minus (rest post : List Char) :
    nextIsDigit (rest ++ '-' :: post) = nextIsDigit rest ∧
      nextIsStar (rest ++ '-' :: post) = nextIsStar rest := by
  cases rest with
  | nil => exact ⟨rfl, rfl⟩
  | cons d r => exact ⟨rfl, rfl⟩

/-- The tokens of an input around one of its `-` characters. -/
theorem tokensFrom_around_minus (post : List Char) :
    ∀ (n : Nat) (pre : List Char) (b : Bool), pre.length ≤ n →
      tokensFrom (pre ++ '-' :: post) b =
        tokensFrom pre b ++ minusAfter b (tokensFrom pre b) :: tokensFrom post true := by
  intro n
  induction n with
  | zero =>
    intro pre b hs
    have : pre = [] := List.length_eq_zero.1 (Nat.le_zero.1 hs)
    subst this
    rw [List.nil_append, tokensFrom_minus, tokensFrom_nil]
    cases b <;> rfl
  | succ n ih =>
    intro pre b hs
    cases pre with
    | nil =>
      rw [List.nil_append, tokensFrom_minus, tokensFrom_nil]
      cases b <;> rfl
    | cons c rest =>
      simp only [List.length_cons, Nat.add_le_add_iff_right] at hs
      have hd : ∀ p : Char → Bool, (rest.dropWhile p).length ≤ n :=
        fun p => le_trans (List.dropWhile_suffix p).length_le hs
      obtain ⟨n1, n2⟩ := takeWhile_append_minus (p := numberChar) (by decide) rest post
      obtain ⟨a1, a2⟩ := takeWhile_append_minus (p := isalpha) (by decide) rest post
      obtain ⟨d1, d2⟩ := nextIs_append_minus rest post
      have step : ∀ (t : String) (l : List Char) (f : Bool), l.length ≤ n →
          endsOperand t = !f →
          t :: tokensFrom (l ++ '-' :: post) f =
            (t :: tokensFrom l f) ++ minusAfter b (t :: tokensFrom l f) :: tokensFrom post true := by
        intro t l f hl he
        rw [ih l f hl, minusAfter_cons, he, Bool.not_not]
        rfl
      rw [List.cons_append, tokensFrom_cons c (rest ++ '-' :: post), tokensFrom_cons c rest,
        n1, n2, a1, a2, d1, d2]
      cases h0 : isspace c with
      | true => simp only [if_true]; exact ih rest b hs
      | false =>
        simp only [Bool.false_eq_true, if_false]
        cases h1 : (isdigit c || (c == '.' && nextIsDigit rest)) with
        | true =>
          simp only [if_true]
          refine step _ _ false (hd _) ?_
          simp only [endsOperand, isNumber, List.headD_cons, List.length_cons, Bool.not_false,
            Bool.or_eq_true, Bool.and_eq_true, decide_eq_true_eq]
          simp only [Bool.or_eq_true, Bool.and_eq_true] at h1
          rcases h1 with h1 | ⟨h1, h2⟩
          · exact Or.inl (Or.inl (Or.inl h1))
          · refine Or.inl (Or.inl (Or.inr ⟨h1, ?_⟩))
            cases rest with
            | nil => simp [nextIsDigit] at h2
            | cons d r =>
              have : numberChar d = true := by
                simp only [nextIsDigit] at h2
                simp [numberChar, h2]
              simp [this]
        | false =>
          simp only [Bool.false_eq_true, if_false]
          have hdig : isdigit c = false := by
            simp only [Bool.or_eq_false_iff] at h1
            exact h1.1
          cases h2 : isalpha c with
          | true =>
            simp only [if_true]
            refine step _ _ false (hd _) ?_
            simp [endsOperand, h2]
          | false =>
            simp only [Bool.false_eq_true, if_false]
            cases h3 : c == '(' with
            | true => simp only [if_true]; exact step _ _ true hs (by decide)
            | false =>
              simp only [Bool.false_eq_true, if_false]
              cases h4 : c == ')' with
              | true => simp only [if_true]; exact step _ _ false hs (by decide)
              | false =>
                simp only [Bool.false_eq_true, if_false]
                cases h5 : c == '*' with
                | true =>
                  simp only [if_true]
                  cases h6 : nextIsStar rest with
                  | true =>
                    simp only [if_true]
                    cases rest with
                    | nil => simp [nextIsStar] at h6
                    | cons d r =>
                      simp only [List.cons_append, List.tail_cons]
                      simp only [List.length_cons] at hs
                      exact step _ _ true (by omega) (by decide)
                  | false =>
                    simp only [Bool.false_eq_true, if_false]
                    exact step _ _ true hs (by decide)
                | false =>
                  simp only [Bool.false_eq_true, if_false]
                  cases h6 : c == '-' with
                  | true =>
                    simp only [if_true]
                    cases b
                    · exact step _ _ true hs (by decide)
                    · exact step _ _ true hs (by decide)
                  | false =>
                    simp only [Bool.false_eq_true, if_false]
                    refine step _ _ true hs ?_
                    have h4' : c ≠ ')' := by simpa using h4
                    have hne : (String.mk [c] == ")") = false := by
                      rw [beq_eq_false_iff_ne]
                      intro hc
                      have := congrArg String.data hc
                      simp at this
                      exact h4' this
                    simp [endsOperand, isNumber, hdig, h2, hne]

theorem minusAfter_iff (toks : List String) :
    (minusAfter true toks = "-" ↔ ∃ t, toks.getLast? = some t ∧ endsOperand t = true) ∧
    (minusAfter true toks = "#" ↔
      toks.getLast? = none ∨ ∃ t, toks.getLast? = some t ∧ endsOperand t = false) := by
  unfold minusAfter
  cases toks.getLast? with
  | none => simp
  | some t => cases h : endsOperand t <;> simp [h]

/-- C13 fails at `$-3`: the token before the `-` is `$`, which is neither `(`
nor an operator, and `tokenize` emits `#` for the `-`. -/
theorem C13_unary_minus_after_dollar :
    tokenize "$-3" = ["$", "#", "3"] ∧ isOperator precedence "$" = false ∧
      ("$" == "(") = false := by
  decide

/-- C13 as amended: for every input and every `-` character in it, with `pre`
the input before that character and `post` the input after it, the tokens are
those of `pre`, the token for the `-`, and the tokens of `post`; the token for
the `-` is `-` if and only if the last token of `pre` is a number, an identifier
or `)`, and it is `#` if and only if `pre` has no token or its last token is
anything else: `(`, an operator, or another one-character token such as `$`. -/
theorem C13_unary_minus_context (pre post : String) :
    tokenize (pre ++ "-" ++ post) =
      tokenize pre ++ minusAfter true (tokenize pre) :: tokensFrom post.data true ∧
    (minusAfter true (tokenize pre) = "-" ↔
      ∃ t, (tokenize pre).getLast? = some t ∧ endsOperand t = true) ∧
    (minusAfter true (tokenize pre) = "#" ↔
      (tokenize pre).getLast? = none ∨
        ∃ t, (tokenize pre).getLast? = some t ∧ endsOperand t = false) ∧
    (tokenize "3-2" = ["3", "-", "2"] ∧ tokenize "-3" = ["#", "3"] ∧
      tokenize "(-3)" = ["(", "#", "3", ")"] ∧ tokenize "2*-3" = ["2", "*", "#", "3"] ∧
      tokenize "2--3" = ["2", "-", "#", "3"] ∧ tokenize "$-3" = ["$", "#", "3"]) := by
  refine ⟨?_, (minusAfter_iff _).1, (minusAfter_iff _).2, by decide⟩
  rw [tokenize_eq, tokenize_eq]
  have e : (pre ++ "-" ++ post).data = pre.data ++ '-' :: post.data := by
    simp [String.data_append]
  rw [e]
  exact tokensFrom_around_minus post.data _ pre.data true le_rfl

theorem removeSpaces_append (l1 l2 : List Char) :
    removeSpaces (l1 ++ l2) = removeSpaces l1 ++ removeSpaces l2 := by
  simp [removeSpaces]

theorem removeSpaces_of_no_space {l : List Char} (h : ∀ c ∈ l, isspace c = false) :
    removeSpaces l = l := by
  rw [removeSpaces, List.filter_eq_self]
  intro c hc
  simp [h c hc]

theorem unaryAsMinus_data {c : Char} (hc : c ≠ '#') (l : List Char) :
    (unaryAsMinus (String.mk (c :: l))).data = c :: l := by
  have : (String.mk (c :: l) == "#") = false := by
    rw [beq_eq_false_iff_ne]
    intro h
    have := congrArg String.data h
    simp at this
    exact hc this.1
  simp [unaryAsMinus, this]

theorem removeSpaces_run {p : Char → Bool} (hp : ∀ c, p c = true → isspace c = false)
    (rest : List Char) :
    removeSpaces rest = rest.takeWhile p ++ removeSpaces (rest.dropWhile p) := by
  conv_lhs => rw [← List.takeWhile_append_dropWhile p rest]
  rw [removeSpaces_append,
    removeSpaces_of_no_space (fun c hc => hp c (List.mem_takeWhile_imp hc))]

/-- The tokens of an input without `#` are its characters without the
whitespace, and no token is empty or holds whitespace. -/
theorem tokensFrom_chars :
    ∀ (n : Nat) (s : List Char) (b : Bool), s.length ≤ n → '#' ∉ s →
      ((tokensFrom s b).map unaryAsMinus).flatMap String.data = removeSpaces s ∧
      ∀ t ∈ tokensFrom s b, t.data ≠ [] ∧ ∀ c ∈ t.data, isspace c = false := by
  intro n
  induction n with
  | zero =>
    intro s b hs _
    have : s = [] := List.length_eq_zero.1 (Nat.le_zero.1 hs)
    subst this
    simp [tokensFrom_nil, removeSpaces]
  | succ n ih =>
    intro s b hs hsharp
    cases s with
    | nil => simp [tokensFrom_nil, removeSpaces]
    | cons c rest =>
      simp only [List.length_cons, Nat.add_le_add_iff_right] at hs
      have hc : c ≠ '#' := fun h => hsharp (h ▸ List.mem_cons_self _ _)
      have hrest : '#' ∉ rest := fun h => hsharp (List.mem_cons_of_mem _ h)
      have hd : ∀ p : Char → Bool, (rest.dropWhile p).length ≤ n ∧ '#' ∉ rest.dropWhile p :=
        fun p => ⟨le_trans (List.dropWhile_suffix p).length_le hs,
          fun h => hrest (List.dropWhile_subset p h)⟩
      have step : ∀ (l rest2 : List Char) (f : Bool), rest2.length ≤ n → '#' ∉ rest2 →
          (∀ x ∈ c :: l, isspace x = false) → removeSpaces rest = l ++ removeSpaces rest2 →
          (((String.mk (c :: l) :: tokensFrom rest2 f).map unaryAsMinus).flatMap String.data =
              c :: removeSpaces rest) ∧
            ∀ t ∈ String.mk (c :: l) :: tokensFrom rest2 f,
              t.data ≠ [] ∧ ∀ x ∈ t.data, isspace x = false := by
        intro l rest2 f hl hs2 hns hrem
        obtain ⟨i1, i2⟩ := ih rest2 f hl hs2
        constructor
        · simp only [List.map_cons, List.flatMap_cons, unaryAsMinus_data hc, i1, hrem,
            List.cons_append]
        · intro t ht
          rcases List.mem_cons.1 ht with rfl | ht
          · exact ⟨by simp, hns⟩
          · exact i2 t ht
      rw [tokensFrom_cons]
      cases h0 : isspace c with
      | true =>
        simp only [if_true]
        rw [removeSpaces_cons_space h0]
        exact ih rest b hs hrest
      | false =>
        rw [removeSpaces_cons_other h0]
        have hone : ∀ x ∈ [c], isspace x = false := by
          intro x hx; simp only [List.mem_singleton] at hx; subst hx; exact h0
        simp only [Bool.false_eq_true, if_false]
        cases h1 : (isdigit c || (c == '.' && nextIsDigit rest)) with
        | true =>
          simp only [if_true]
          refine step _ _ false (hd _).1 (hd _).2 ?_
            (removeSpaces_run (fun x hx => numberChar_not_space hx) rest)
          intro x hx
          rcases List.mem_cons.1 hx with rfl | hx
          · exact h0
          · exact numberChar_not_space (List.mem_takeWhile_imp hx)
        | false =>
          simp only [Bool.false_eq_true, if_false]
          cases h2 : isalpha c with
          | true =>
            simp only [if_true]
            refine step _ _ false (hd _).1 (hd _).2 ?_
              (removeSpaces_run (fun x hx => isalpha_not_space hx) rest)
            intro x hx
            rcases List.mem_cons.1 hx with rfl | hx
            · exact h0
            · exact isalpha_not_space (List.mem_takeWhile_imp hx)
          | false =>
            simp only [Bool.false_eq_true, if_false]
            cases h3 : c == '(' with
            | true =>
              have : c = '(' := by simpa using h3
              subst this
              simp only [if_true]
              exact step [] rest true hs hrest hone rfl
            | false =>
              simp only [Bool.false_eq_true, if_false]
              cases h4 : c == ')' with
              | true =>
                have : c = ')' := by simpa using h4
                subst this
                simp only [if_true]
                exact step [] rest false hs hrest hone rfl
              | false =>
                simp only [Bool.false_eq_true, if_false]
                cases h5 : c == '*' with
                | true =>
                  have : c = '*' := by simpa using h5
                  subst this
                  simp only [if_true]
                  cases h6 : nextIsStar rest with
                  | true =>
                    simp only [if_true]
                    cases rest with
                    | nil => simp [nextIsStar] at h6
                    | cons d r =>
                      have : d = '*' := by simpa [nextIsStar] using h6
                      subst this
                      simp only [List.length_cons] at hs
                      refine step ['*'] r true (by omega)
                        (fun h => hrest (List.mem_cons_of_mem _ h)) ?_ ?_
                      · intro x hx
                        simp only [List.mem_cons, List.mem_singleton, List.not_mem_nil,
                          or_false, or_self] at hx
                        subst hx; rfl
                      · rw [removeSpaces_cons_other (by rfl)]; rfl
                  | false =>
                    simp only [Bool.false_eq_true, if_false]
                    exact step [] rest true hs hrest hone rfl
                | false =>
                  simp only [Bool.false_eq_true, if_false]
                  cases h6 : c == '-' with
                  | true =>
                    have : c = '-' := by simpa using h6
                    subst this
                    simp only [if_true]
                    obtain ⟨i1, i2⟩ := ih rest true hs hrest
                    constructor
                    · cases b <;>
                        simp only [Bool.false_eq_true, if_false, if_true, List.map_cons,
                          List.flatMap_cons, i1] <;> rfl
                    · intro t ht
                      rcases List.mem_cons.1 ht with rfl | ht
                      · cases b <;> exact ⟨by decide, by decide⟩
                      · exact i2 t ht
                  | false =>
                    simp only [Bool.false_eq_true, if_false]
                    exact step [] rest true hs hrest hone rfl

/-- C19 (tokenization loses no characters): for an input without the character
`#`, no token is empty or holds whitespace, and the characters of the tokens in
order, with `-` for each `#` token, are the characters of the input without the
whitespace. -/
theorem C19_tokenization_loses_no_characters (expression : String)
    (hsharp : '#' ∉ expression.data) :
    (∀ t ∈ tokenize expression, t.data ≠ [] ∧ ∀ c ∈ t.data, isspace c = false) ∧
    ((tokenize expression).map unaryAsMinus).flatMap String.data =
      removeSpaces expression.data := by
  obtain ⟨h1, h2⟩ := tokensFrom_chars _ expression.data true le_rfl hsharp
  exact ⟨h2, h1⟩

/-- C19 at the input ` -3.5*(pi - x1) ** 2 $`. -/
theorem C19_tokenization_loses_no_characters_witness :
    '#' ∉ " -3.5*(pi - x1) ** 2 $".data ∧
    ((tokenize " -3.5*(pi - x1) ** 2 $").map unaryAsMinus).flatMap String.data =
      removeSpaces " -3.5*(pi - x1) ** 2 $".data :=
  ⟨by decide, (C19_tokenization_loses_no_characters " -3.5*(pi - x1) ** 2 $" (by decide)).2⟩

theorem calculationStep_simple {V : Type} (D : DoubleOps V) {t : String}
    (ht : simpleToken D t = true) (vs : List V) :
    (t = "#" ∧ ((vs = [] ∧ calculationStep D precedence t vs = .error .invalidExpression) ∨
        ∃ v vs2, vs = v :: vs2 ∧ calculationStep D precedence t vs = .ok (D.neg v :: vs2))) ∨
    ((t = "+" ∨ t = "-" ∨ t = "*") ∧
      ((vs.length < 2 ∧ calculationStep D precedence t vs = .error .invalidExpression) ∨
        ∃ w v2 v1 vs2, vs = v2 :: v1 :: vs2 ∧
          calculationStep D precedence t vs = .ok (w :: vs2))) ∨
    ((t == "#") = false ∧ (t == "+" || t == "-" || t == "*") = false ∧
      ∃ v, calculationStep D precedence t vs = .ok (v :: vs)) := by
  cases h1 : t == "#" with
  | true =>
    have : t = "#" := by simpa using h1
    subst this
    left
    refine ⟨rfl, ?_⟩
    cases vs with
    | nil => exact Or.inl ⟨rfl, rfl⟩
    | cons v vs2 => exact Or.inr ⟨v, vs2, rfl, rfl⟩
  | false =>
    right
    cases h2 : (t == "+" || t == "-" || t == "*") with
    | true =>
      left
      have hcases : t = "+" ∨ t = "-" ∨ t = "*" := by
        simp only [Bool.or_eq_true, beq_iff_eq] at h2
        tauto
      refine ⟨hcases, ?_⟩
      cases vs with
      | nil => rcases hcases with rfl | rfl | rfl <;> exact Or.inl ⟨by simp, rfl⟩
      | cons v2 vs1 =>
        cases vs1 with
        | nil => rcases hcases with rfl | rfl | rfl <;> exact Or.inl ⟨by simp, rfl⟩
        | cons v1 vs2 =>
          rcases hcases with rfl | rfl | rfl
          · exact Or.inr ⟨_, v2, v1, vs2, rfl, rfl⟩
          · exact Or.inr ⟨_, v2, v1, vs2, rfl, rfl⟩
          · exact Or.inr ⟨_, v2, v1, vs2, rfl, rfl⟩
    | false =>
      right
      refine ⟨rfl, rfl, ?_⟩
      simp only [Bool.or_eq_false_iff] at h2
      obtain ⟨⟨p1, p2⟩, p3⟩ := h2
      simp only [simpleToken, h1, p1, p2, p3, Bool.or_false, Bool.or_eq_true,
        Bool.and_eq_true] at ht
      rcases ht with ⟨hn, hv⟩ | hc
      · obtain ⟨v, hv⟩ := Option.isSome_iff_exists.1 hv
        exact ⟨v, by simp [calculationStep, hn, hv]⟩
      · simp only [isConstant, Bool.or_eq_true, beq_iff_eq] at hc
        rcases hc with rfl | rfl
        · exact ⟨D.pi, rfl⟩
        · exact ⟨D.e, rfl⟩

/-- On the sequences of C14 the loop of `calculation` throws "Invalid
expression" where the depth scan fails, and leaves a stack of the scanned depth
otherwise. -/
theorem calculationLoop_simple {V : Type} (D : DoubleOps V) :
    ∀ (rpn : List String) (vs : List V), (∀ t ∈ rpn, simpleToken D t = true) →
      (rpnDepth vs.length rpn = none ∧
        calculationLoop D precedence rpn vs = .error .invalidExpression) ∨
      ∃ vs2, rpnDepth vs.length rpn = some vs2.length ∧
        calculationLoop D precedence rpn vs = .ok vs2 := by
  intro rpn
  induction rpn with
  | nil => intro vs _; exact Or.inr ⟨vs, rfl, rfl⟩
  | cons t ts ih =>
    intro vs h
    have hts : ∀ x ∈ ts, simpleToken D x = true := fun x hx => h x (List.mem_cons_of_mem _ hx)
    rw [rpnDepth, calculationLoop]
    rcases calculationStep_simple D (h t (List.mem_cons_self _ _)) vs with
      ⟨rfl, h1⟩ | ⟨hop, h1⟩ | ⟨n1, n2, v, hv⟩
    · rcases h1 with ⟨rfl, e⟩ | ⟨v, vs2, rfl, e⟩
      · left; rw [e]; exact ⟨rfl, rfl⟩
      · rw [e]
        have := ih (D.neg v :: vs2) hts
        simpa using this
    · have hb : (t == "#") = false ∧ (t == "+" || t == "-" || t == "*") = true := by
        rcases hop with rfl | rfl | rfl <;> exact ⟨by decide, by decide⟩
      simp only [hb.1, hb.2, Bool.false_eq_true, if_false, if_true]
      rcases h1 with ⟨hlen, e⟩ | ⟨w, v2, v1, vs2, rfl, e⟩
      · left
        rw [e, if_neg (by omega)]
        exact ⟨rfl, rfl⟩
      · rw [e]
        have := ih (w :: vs2) hts
        simpa using this
    · simp only [n1, n2, Bool.false_eq_true, if_false, hv]
      have := ih (v :: vs) hts
      simpa using this

theorem simpleToken_of_plain {V : Type} (D : DoubleOps V) {t : String}
    (hp : plainToken t = true) (hc : isNumber t = true → (D.stod t).isSome = true) :
    simpleToken D t = true := by
  cases hn : isNumber t with
  | true =>
    simp [simpleToken, hn, hc hn]
  | false =>
    simp only [plainToken, hn, Bool.false_or] at hp
    simp only [simpleToken, hn, Bool.false_and, Bool.false_or]
    exact hp

/-- The first number token of a sequence that `std::stod` does not convert. -/
theorem first_unconverted {V : Type} (D : DoubleOps V) :
    ∀ rpn : List String, (∀ t ∈ rpn, plainToken t = true) →
      ¬ (∀ t ∈ rpn, isNumber t = true → (D.stod t).isSome = true) →
      ∃ pre t post, rpn = pre ++ t :: post ∧ (∀ x ∈ pre, simpleToken D x = true) ∧
        isNumber t = true ∧ D.stod t = none := by
  intro rpn
  induction rpn with
  | nil => intro _ h; exact absurd (by simp) h
  | cons t ts ih =>
    intro hp hn
    by_cases ht : isNumber t = true ∧ D.stod t = none
    · exact ⟨[], t, ts, rfl, by simp, ht.1, ht.2⟩
    · have hconv : isNumber t = true → (D.stod t).isSome = true := by
        intro h1
        cases hs : D.stod t with
        | none => exact absurd ⟨h1, hs⟩ ht
        | some v => rfl
      have hts : ¬ (∀ x ∈ ts, isNumber x = true → (D.stod x).isSome = true) := by
        intro hall
        apply hn
        intro x hx
        rcases List.mem_cons.1 hx with rfl | hx
        · exact hconv
        · exact hall x hx
      obtain ⟨pre, u, post, e, h1, h2, h3⟩ :=
        ih (fun x hx => hp x (List.mem_cons_of_mem _ hx)) hts
      refine ⟨t :: pre, u, post, by rw [e]; rfl, ?_, h2, h3⟩
      intro x hx
      rcases List.mem_cons.1 hx with rfl | hx
      · exact simpleToken_of_plain D (hp _ (List.mem_cons_self _ _)) hconv
      · exact h1 x hx

/-- A sequence with a number token that `std::stod` does not convert gives no
value: `calculation` throws "Invalid expression" before that token, or the
exception of `std::stod` at it. -/
theorem calculation_unconverted {V : Type} (D : DoubleOps V) (rpn : List String)
    (hp : ∀ t ∈ rpn, plainToken t = true)
    (hn : ¬ (∀ t ∈ rpn, isNumber t = true → (D.stod t).isSome = true)) :
    calculation D precedence rpn = .error .invalidExpression ∨
      calculation D precedence rpn = .error .stodFailed := by
  obtain ⟨pre, t, post, e, h1, h2, h3⟩ := first_unconverted D rpn hp hn
  subst e
  simp only [calculation]
  rw [calculationLoop_append]
  rcases calculationLoop_simple D pre [] h1 with ⟨_, hl⟩ | ⟨vs, _, hl⟩
  · rw [hl]; exact Or.inl rfl
  · rw [hl]
    simp only
    rw [calculationLoop_number_fail D _ h2 h3]
    exact Or.inr rfl

set_option maxRecDepth 20000 in
/-- C14 fails at the sequences `[a]`, with `a` a number token of 310 digits `9`,
and `[.x, +]`: the first is well-formed RPN, and `calculation` returns no value
for it but the `std::out_of_range` of `std::stod`; the second is not
well-formed, and `calculation` fails with the `std::invalid_argument` of
`std::stod`, not with "Invalid expression". -/
theorem C14_stod_throws_for_a_number_token :
    (isNumber hugeLiteral = true ∧ wellFormedRPN [hugeLiteral] = true ∧
      calculation exactOps precedence [hugeLiteral] = .error .stodFailed) ∧
    (isNumber ".x" = true ∧ wellFormedRPN [".x", "+"] = false ∧
      calculation exactOps precedence [".x", "+"] = .error .stodFailed) := by
  decide

/-- C14 as amended (evaluator stack discipline): under every table of the
program, for a sequence of number tokens, constants, `#` and the binary
operators `+ - *`, `calculation` returns a value if and only if the sequence is
well-formed RPN and `std::stod` converts each of its number tokens; otherwise it
throws "Invalid expression" or the exception of `std::stod`, the latter only
when a number token is not converted.  When `std::stod` converts every number
token, the loop throws "Invalid expression" at an operator that finds too few
values and otherwise leaves a stack of the scanned depth, and `calculation`
returns a value for a well-formed sequence and throws "Invalid expression" for
any other.  The second-popped value is the left operand, so that `[a, b, -]`
gives `a - b`. -/
theorem C14_evaluator_stack_discipline {V : Type} (D : DoubleOps V) (prec : Table)
    (rpn : List String) (hprec : tableOK prec = true)
    (hrpn : ∀ t ∈ rpn, plainToken t = true) :
    ((∃ v, calculation D prec rpn = .ok v) ↔
      (wellFormedRPN rpn = true ∧
        ∀ t ∈ rpn, isNumber t = true → (D.stod t).isSome = true)) ∧
    ((∃ v, calculation D prec rpn = .ok v) ∨
      calculation D prec rpn = .error .invalidExpression ∨
      calculation D prec rpn = .error .stodFailed) ∧
    (calculation D prec rpn = .error .stodFailed →
      ∃ t ∈ rpn, isNumber t = true ∧ D.stod t = none) ∧
    ((∀ t ∈ rpn, isNumber t = true → (D.stod t).isSome = true) →
      ((rpnDepth 0 rpn = none ∧ calculationLoop D prec rpn [] = .error .invalidExpression) ∨
        ∃ vs, rpnDepth 0 rpn = some vs.length ∧ calculationLoop D prec rpn [] = .ok vs) ∧
      ((wellFormedRPN rpn = true ∧ ∃ v, calculation D prec rpn = .ok v) ∨
        (wellFormedRPN rpn = false ∧
          calculation D prec rpn = .error .invalidExpression))) ∧
    (∀ a b va vb, isNumber a = true → isNumber b = true → D.stod a = some va →
      D.stod b = some vb → calculation D prec [a, b, "-"] = .ok (D.sub va vb)) := by
  have hconv : (∀ t ∈ rpn, isNumber t = true → (D.stod t).isSome = true) →
      ((rpnDepth 0 rpn = none ∧
          calculationLoop D precedence rpn [] = .error .invalidExpression) ∨
        ∃ vs, rpnDepth 0 rpn = some vs.length ∧ calculationLoop D precedence rpn [] = .ok vs) ∧
      ((wellFormedRPN rpn = true ∧ ∃ v, calculation D precedence rpn = .ok v) ∨
        (wellFormedRPN rpn = false ∧
          calculation D precedence rpn = .error .invalidExpression)) := by
    intro hall
    have hsimple : ∀ t ∈ rpn, simpleToken D t = true :=
      fun t ht => simpleToken_of_plain D (hrpn t ht) (hall t ht)
    have hloop := calculationLoop_simple D rpn [] hsimple
    simp only [List.length_nil] at hloop
    refine ⟨hloop, ?_⟩
    rcases hloop with ⟨h1, h2⟩ | ⟨vs, h1, h2⟩
    · right
      simp [wellFormedRPN, h1, calculation, h2]
    · cases vs with
      | nil => right; simp [wellFormedRPN, h1, calculation, h2]
      | cons v vs =>
        cases vs with
        | nil => left; simp [wellFormedRPN, h1, calculation, h2]
        | cons w ws => right; simp [wellFormedRPN, h1, calculation, h2]
  rw [calculation_table D hprec, calculationLoop_table D hprec]
  refine ⟨?_, ?_, ?_, hconv, ?_⟩
  · constructor
    · rintro ⟨v, hv⟩
      by_cases hall : ∀ t ∈ rpn, isNumber t = true → (D.stod t).isSome = true
      · rcases (hconv hall).2 with ⟨h1, _⟩ | ⟨_, h2⟩
        · exact ⟨h1, hall⟩
        · rw [h2] at hv; exact absurd hv (by simp)
      · rcases calculation_unconverted D rpn hrpn hall with h | h <;>
          · rw [h] at hv; exact absurd hv (by simp)
    · rintro ⟨hw, hall⟩
      rcases (hconv hall).2 with ⟨_, h2⟩ | ⟨h1, _⟩
      · exact h2
      · rw [hw] at h1; exact absurd h1 (by simp)
  · by_cases hall : ∀ t ∈ rpn, isNumber t = true → (D.stod t).isSome = true
    · rcases (hconv hall).2 with ⟨_, h2⟩ | ⟨_, h2⟩
      · exact Or.inl h2
      · exact Or.inr (Or.inl h2)
    · rcases calculation_unconverted D rpn hrpn hall with h | h
      · exact Or.inr (Or.inl h)
      · exact Or.inr (Or.inr h)
  · intro hfail
    by_cases hall : ∀ t ∈ rpn, isNumber t = true → (D.stod t).isSome = true
    · rcases (hconv hall).2 with ⟨_, v, h2⟩ | ⟨_, h2⟩ <;>
        · rw [h2] at hfail; exact absurd hfail (by simp)
    · obtain ⟨pre, t, post, e, _, h2, h3⟩ := first_unconverted D rpn hrpn hall
      exact ⟨t, by rw [e]; simp, h2, h3⟩
  · intro a b va vb na nb hva hvb
    rw [calculation_table D hprec]
    simp only [calculation]
    rw [calculationLoop_number D _ na hva, calculationLoop_number D _ nb hvb,
      calculationLoop_sub]
    rfl

/-- The amended C14 at the initial table, the exact reading and the sequence
`7 2 - #`. -/
theorem C14_evaluator_stack_discipline_witness :
    (tableOK precedence = true ∧ ∀ t ∈ ["7", "2", "-", "#"], plainToken t = true) ∧
    ((∃ v, calculation exactOps precedence ["7", "2", "-", "#"] = .ok v) ↔
      (wellFormedRPN ["7", "2", "-", "#"] = true ∧
        ∀ t ∈ ["7", "2", "-", "#"], isNumber t = true → (exactOps.stod t).isSome = true)) :=
  ⟨by decide,
    (C14_evaluator_stack_discipline exactOps precedence ["7", "2", "-", "#"] (by decide)
      (by decide)).1⟩

theorem function_cases {t : String} (h : isFunction t = true) :
    t = "ln" ∨ t = "exp" ∨ t = "sin" ∨ t = "cos" ∨ t = "tan" ∨ t = "sqrt" ∨ t = "arcsin" ∨
      t = "arccos" ∨ t = "arctan" ∨ t = "sinh" ∨ t = "cosh" ∨ t = "tanh" := by
  simp only [isFunction, Bool.or_eq_true, beq_iff_eq] at h
  tauto

theorem function_not_operand {t : String} (h : isFunction t = true) :
    isNumber t = false ∧ isConstant t = false ∧ (t == "(") = false := by
  rcases function_cases h with h | h | h | h | h | h | h | h | h | h | h | h <;>
    subst h <;> decide

theorem convertLoop_operand {t : String} (h : (isNumber t || isConstant t) = true)
    (ts out st : List String) :
    convertLoop (t :: ts) out st = convertLoop ts (out ++ [t]) st := by
  rw [convertLoop, if_pos h]

theorem convertLoop_function {t : String} (h : isFunction t = true) (ts out st : List String) :
    convertLoop (t :: ts) out st = convertLoop ts out (t :: st) := by
  obtain ⟨h1, h2, _⟩ := function_not_operand h
  simp [convertLoop, h, h1, h2]

theorem convertLoop_close (ts out st : List String) :
    convertLoop (")" :: ts) out st =
      match popToParen st out with
      | none => .error .mismatchedParentheses
      | some ([], out2) => convertLoop ts out2 []
      | some (top :: st2, out2) =>
        if isFunction top then convertLoop ts (out2 ++ [top]) st2
        else convertLoop ts out2 (top :: st2) := by
  rw [convertLoop]; rfl

/-- A `)` with an operator above the `(`, and no function name below it. -/
theorem convertLoop_close_operator {x : String} (hx : (x == "(") = false)
    (ts out st : List String) (hst : ∀ top st2, st = top :: st2 → isFunction top = false) :
    convertLoop (")" :: ts) out (x :: "(" :: st) = convertLoop ts (out ++ [x]) st := by
  have hp : popToParen (x :: "(" :: st) out = some (st, out ++ [x]) := by
    simp [popToParen, hx]
  rw [convertLoop_close, hp]
  cases st with
  | nil => rfl
  | cons top st2 => simp [hst top st2 rfl]

/-- A `)` with the `(` of a function call on top. -/
theorem convertLoop_close_call {f : String} (hf : isFunction f = true)
    (ts out st : List String) :
    convertLoop (")" :: ts) out ("(" :: f :: st) = convertLoop ts (out ++ [f]) st := by
  have hp : popToParen ("(" :: f :: st) out = some (f :: st, out) := by
    simp [popToParen]
  rw [convertLoop_close, hp]
  simp [hf]

theorem convertLoop_operator_on_paren {t : String} (h : isOperator precedence t = true)
    (ts out st : List String) :
    convertLoop (t :: ts) out ("(" :: st) = convertLoop ts out (t :: "(" :: st) := by
  have hp : popsBefore t "(" = false := by simp [popsBefore]
  rw [convertLoop_operator h]
  simp [hp]

/-- The converter reads the rendering of a tree and puts out its post-order
traversal, leaving the stack as it was, when no function name is on top. -/
theorem convertLoop_render :
    ∀ (e : Tree) (rest out st : List String), e.valid = true →
      (∀ top st2, st = top :: st2 → isFunction top = false) →
      convertLoop (e.render ++ rest) out st = convertLoop rest (out ++ e.postorder) st := by
  intro e
  induction e with
  | num n =>
    intro rest out st hv _
    simp only [Tree.valid] at hv
    exact convertLoop_operand (by simp [hv]) rest out st
  | const c =>
    intro rest out st hv _
    simp only [Tree.valid] at hv
    exact convertLoop_operand (by simp [hv]) rest out st
  | neg e ih =>
    intro rest out st hv hst
    simp only [Tree.valid] at hv
    simp only [Tree.render, Tree.postorder, List.cons_append, List.nil_append,
      List.append_assoc]
    rw [convertLoop_open, convertLoop_operator_on_paren (by decide),
      ih _ _ _ hv (by intro top st2 h; cases h; decide),
      convertLoop_close_operator (by decide) _ _ _ hst]
    simp
  | bin op l r ihl ihr =>
    intro rest out st hv hst
    simp only [Tree.valid, Bool.and_eq_true] at hv
    obtain ⟨⟨hop, hl⟩, hr⟩ := hv
    have hop2 : isOperator precedence op = true ∧ isFunction op = false ∧
        (op == "(") = false := by
      simp only [Bool.or_eq_true, beq_iff_eq] at hop
      rcases hop with (((rfl | rfl) | rfl) | rfl) | rfl <;> decide
    simp only [Tree.render, Tree.postorder, List.cons_append, List.nil_append,
      List.append_assoc]
    rw [convertLoop_open, ihl _ _ _ hl (by intro top st2 h; cases h; decide),
      convertLoop_operator_on_paren hop2.1,
      ihr _ _ _ hr (by intro top st2 h; cases h; exact hop2.2.1),
      convertLoop_close_operator hop2.2.2 _ _ _ hst]
    simp
  | app f e ih =>
    intro rest out st hv _
    simp only [Tree.valid, Bool.and_eq_true] at hv
    simp only [Tree.render, Tree.postorder, List.cons_append, List.nil_append,
      List.append_assoc]
    rw [convertLoop_function hv.1, convertLoop_open,
      ih _ _ _ hv.2 (by intro top st2 h; cases h; decide),
      convertLoop_close_call hv.1]
    simp

/-- C17 (shunting-yard agrees with the expression tree): under every table of
the program, for every tree of number tokens, constants, negations, binary
operations `+ - * / **` and function applications, `shuntingYard` on the tokens
of the fully parenthesised rendering returns the post-order traversal. -/
theorem C17_agrees_with_expression_tree (prec : Table) (e : Tree)
    (hprec : tableOK prec = true) (hvalid : e.valid = true) :
    (shuntingYard prec e.render).1 = .ok e.postorder := by
  rw [(shuntingYard_eq hprec _).1, convert_eq]
  have := convertLoop_render e [] [] [] hvalid (by intro top st2 h; cases h)
  rw [List.append_nil] at this
  rw [this]
  rfl

/-- C17 at the initial table and the tree of `sin((-(2 ** pi))) / (3 - x)` with
`4` for `x`. -/
theorem C17_agrees_with_expression_tree_witness :
    (tableOK precedence = true ∧
      (Tree.bin "/" (.app "sin" (.neg (.bin "**" (.num "2") (.const "pi"))))
        (.bin "-" (.num "3") (.num "4"))).valid = true) ∧
    (shuntingYard precedence
        ["(", "sin", "(", "(", "#", "(", "2", "**", "pi", ")", ")", ")", "/",
          "(", "3", "-", "4", ")", ")"]).1 =
      .ok ["2", "pi", "**", "#", "sin", "3", "4", "-", "/"] :=
  ⟨by decide,
    C17_agrees_with_expression_tree precedence
      (.bin "/" (.app "sin" (.neg (.bin "**" (.num "2") (.const "pi"))))
        (.bin "-" (.num "3") (.num "4"))) (by decide) (by decide)⟩

theorem popToParen_split :
    ∀ (st out : List String) {st2 out2 : List String},
      popToParen st out = some (st2, out2) →
      ∃ pre, st = pre ++ "(" :: st2 ∧ out2 = out ++ pre ∧ ∀ x ∈ pre, notOpen x = true := by
  intro st
  induction st with
  | nil => intro out st2 out2 h; simp [popToParen] at h
  | cons top st ih =>
    intro out st2 out2 h
    rw [popToParen] at h
    cases hp : top == "(" with
    | true =>
      have : top = "(" := by simpa using hp
      subst this
      simp only [beq_self_eq_true, if_true, Option.some.injEq, Prod.mk.injEq] at h
      obtain ⟨rfl, rfl⟩ := h
      exact ⟨[], by simp, by simp, by simp⟩
    | false =>
      simp only [hp, Bool.false_eq_true, if_false] at h
      obtain ⟨pre, e1, e2, e3⟩ := ih _ h
      refine ⟨top :: pre, by simp [e1], by simp [e2], ?_⟩
      intro x hx
      rcases List.mem_cons.1 hx with rfl | hx
      · simp [notOpen, bne, hp]
      · exact e3 x hx

theorem filter_notOpen_of_all {l : List String} (h : ∀ x ∈ l, notOpen x = true) :
    l.filter notOpen = l :=
  List.filter_eq_self.2 h

theorem popsBefore_notOpen {token x : String} (h : popsBefore token x = true) :
    notOpen x = true := by
  simp only [popsBefore, Bool.and_eq_true] at h
  exact h.1

/-- The stack without its `(`, split at the tokens that rule 3 pops. -/
theorem filter_notOpen_split (token : String) (st : List String) :
    st.filter notOpen =
      st.takeWhile (popsBefore token) ++ (st.dropWhile (popsBefore token)).filter notOpen := by
  conv_lhs => rw [← List.takeWhile_append_dropWhile (popsBefore token) st]
  rw [List.filter_append,
    filter_notOpen_of_all (fun x hx => popsBefore_notOpen (List.mem_takeWhile_imp hx))]

/-- The converter only moves tokens: what the output and the stack hold after
the loop, `(` apart, is what they held before and the tokens of the input that
the evaluator has a rule for. -/
theorem convertLoop_count (a : String) :
    ∀ (tokens out st : List String) {out2 st2 : List String},
      convertLoop tokens out st = .ok (out2, st2) →
      (out2 ++ st2.filter notOpen).count a =
        out.count a + (st.filter notOpen).count a + (tokens.filter outputToken).count a := by
  intro tokens
  induction tokens with
  | nil =>
    intro out st out2 st2 h
    simp only [convertLoop, Except.ok.injEq, Prod.mk.injEq] at h
    obtain ⟨rfl, rfl⟩ := h
    simp [List.count_append]
  | cons t ts ih =>
    intro out st out2 st2 h
    rw [convertLoop] at h
    cases h1 : (isNumber t || isConstant t) with
    | true =>
      simp only [h1, if_true] at h
      have ho : outputToken t = true := by
        simp only [Bool.or_eq_true] at h1
        simp only [outputToken, Bool.or_eq_true]
        tauto
      rw [ih _ _ h, List.filter_cons_of_pos ho, List.count_append, List.count_cons,
        List.count_cons]
      simp only [List.count_nil]
      omega
    | false =>
      simp only [h1, Bool.false_eq_true, if_false] at h
      simp only [Bool.or_eq_false_iff] at h1
      cases h2 : isFunction t with
      | true =>
        simp only [h2, if_true] at h
        have ho : outputToken t = true := by simp [outputToken, h2]
        have hk : notOpen t = true := by
          simp [notOpen, bne, (function_not_operand h2).2.2]
        rw [ih _ _ h, List.filter_cons_of_pos ho, List.filter_cons_of_pos hk, List.count_cons,
          List.count_cons]
        omega
      | false =>
        simp only [h2, Bool.false_eq_true, if_false] at h
        cases h3 : isOperator precedence t with
        | true =>
          simp only [h3, if_true] at h
          have ho : outputToken t = true := by simp [outputToken, h3]
          have hk : notOpen t = true := by
            simp [notOpen, bne, (operator_not_paren h3).1]
          rw [ih _ _ h, List.filter_cons_of_pos ho, List.filter_cons_of_pos hk,
            filter_notOpen_split t st, List.count_append, List.count_append, List.count_cons,
            List.count_cons]
          omega
        | false =>
          simp only [h3, Bool.false_eq_true, if_false] at h
          have ho : outputToken t = false := by simp [outputToken, h1.1, h1.2, h2, h3]
          rw [List.filter_cons_of_neg (by simp [ho])]
          cases h4 : t == "(" with
          | true =>
            have : t = "(" := by simpa using h4
            subst this
            simp only [beq_self_eq_true, if_true] at h
            rw [ih _ _ h, List.filter_cons_of_neg (by decide)]
          | false =>
            simp only [h4, Bool.false_eq_true, if_false] at h
            cases h5 : t == ")" with
            | true =>
              simp only [h5, if_true] at h
              cases hpp : popToParen st out with
              | none => rw [hpp] at h; simp at h
              | some r =>
                obtain ⟨st3, out3⟩ := r
                rw [hpp] at h
                obtain ⟨pre, e1, e2, e3⟩ := popToParen_split st out hpp
                have hst : st.filter notOpen = pre ++ st3.filter notOpen := by
                  rw [e1, List.filter_append, filter_notOpen_of_all e3,
                    List.filter_cons_of_neg (by decide)]
                cases st3 with
                | nil =>
                  simp only at h
                  rw [ih _ _ h, hst, e2, List.count_append, List.count_append]
                  simp
                | cons top st4 =>
                  simp only at h
                  cases h6 : isFunction top with
                  | true =>
                    simp only [h6, if_true] at h
                    have hk : notOpen top = true := by
                      simp [notOpen, bne, (function_not_operand h6).2.2]
                    rw [ih _ _ h, hst, e2, List.filter_cons_of_pos hk, List.count_append,
                      List.count_append, List.count_append, List.count_cons, List.count_cons]
                    simp only [List.count_nil]
                    omega
                  | false =>
                    simp only [h6, Bool.false_eq_true, if_false] at h
                    rw [ih _ _ h, hst, e2, List.count_append, List.count_append]
                    omega
            | false =>
              simp only [h5, Bool.false_eq_true, if_false] at h
              exact ih _ _ h

theorem filter_operand_nil {l : List String} (h : ∀ x ∈ l, operandToken x = false) :
    l.filter operandToken = [] := by
  rw [List.filter_eq_nil_iff]
  intro x hx
  simp [h x hx]

/-- The numbers and constants of the output are those of the input, in the
order of the input; the stack holds none. -/
theorem convertLoop_operands :
    ∀ (tokens out st : List String) {out2 st2 : List String},
      convertLoop tokens out st = .ok (out2, st2) →
      (∀ x ∈ st, operandToken x = false) →
      out2.filter operandToken = out.filter operandToken ++ tokens.filter operandToken ∧
        ∀ x ∈ st2, operandToken x = false := by
  intro tokens
  induction tokens with
  | nil =>
    intro out st out2 st2 h hst
    simp only [convertLoop, Except.ok.injEq, Prod.mk.injEq] at h
    obtain ⟨rfl, rfl⟩ := h
    exact ⟨by simp, hst⟩
  | cons t ts ih =>
    intro out st out2 st2 h hst
    rw [convertLoop] at h
    have push : ∀ x, operandToken x = false → ∀ y ∈ x :: st, operandToken y = false := by
      intro x hx y hy
      rcases List.mem_cons.1 hy with rfl | hy
      · exact hx
      · exact hst y hy
    cases h1 : operandToken t with
    | true =>
      have h1' : (isNumber t || isConstant t) = true := h1
      simp only [h1', if_true] at h
      obtain ⟨i1, i2⟩ := ih _ _ h hst
      refine ⟨?_, i2⟩
      rw [i1, List.filter_append, List.filter_cons_of_pos h1, List.filter_cons_of_pos h1]
      simp
    | false =>
      have h1' : (isNumber t || isConstant t) = false := h1
      simp only [h1', Bool.false_eq_true, if_false] at h
      rw [List.filter_cons_of_neg (by simp [h1])]
      cases h2 : isFunction t with
      | true =>
        simp only [h2, if_true] at h
        exact ih _ _ h (push t h1)
      | false =>
        simp only [h2, Bool.false_eq_true, if_false] at h
        cases h3 : isOperator precedence t with
        | true =>
          simp only [h3, if_true] at h
          obtain ⟨i1, i2⟩ := ih _ _ h (by
            intro y hy
            rcases List.mem_cons.1 hy with rfl | hy
            · exact h1
            · exact hst y (List.dropWhile_subset _ hy))
          refine ⟨?_, i2⟩
          rw [i1, List.filter_append,
            filter_operand_nil (fun x hx => hst x (List.takeWhile_subset _ hx))]
          simp
        | false =>
          simp only [h3, Bool.false_eq_true, if_false] at h
          cases h4 : t == "(" with
          | true =>
            simp only [h4, if_true] at h
            exact ih _ _ h (push t h1)
          | false =>
            simp only [h4, Bool.false_eq_true, if_false] at h
            cases h5 : t == ")" with
            | true =>
              simp only [h5, if_true] at h
              cases hpp : popToParen st out with
              | none => rw [hpp] at h; simp at h
              | some r =>
                obtain ⟨st3, out3⟩ := r
                rw [hpp] at h
                obtain ⟨pre, e1, e2, _⟩ := popToParen_split st out hpp
                have hpre : ∀ x ∈ pre, operandToken x = false := by
                  intro x hx; exact hst x (by rw [e1]; simp [hx])
                have hst3 : ∀ x ∈ st3, operandToken x = false := by
                  intro x hx; exact hst x (by rw [e1]; simp [hx])
                have hout3 : out3.filter operandToken = out.filter operandToken := by
                  rw [e2, List.filter_append, filter_operand_nil hpre]; simp
                cases st3 with
                | nil =>
                  simp only at h
                  obtain ⟨i1, i2⟩ := ih _ _ h (by simp)
                  exact ⟨by rw [i1, hout3], i2⟩
                | cons top st4 =>
                  simp only at h
                  have htop := hst3 top (List.mem_cons_self _ _)
                  cases h6 : isFunction top with
                  | true =>
                    simp only [h6, if_true] at h
                    obtain ⟨i1, i2⟩ := ih _ _ h
                      (fun x hx => hst3 x (List.mem_cons_of_mem _ hx))
                    refine ⟨?_, i2⟩
                    rw [i1, List.filter_append, hout3,
                      List.filter_cons_of_neg (by simp [htop])]
                    simp
                  | false =>
                    simp only [h6, Bool.false_eq_true, if_false] at h
                    obtain ⟨i1, i2⟩ := ih _ _ h hst3
                    exact ⟨by rw [i1, hout3], i2⟩
            | false =>
              simp only [h5, Bool.false_eq_true, if_false] at h
              exact ih _ _ h hst

/-- A token that the converter has no rule for is skipped. -/
theorem convertLoop_filter :
    ∀ (tokens out st : List String),
      convertLoop (tokens.filter converterToken) out st = convertLoop tokens out st := by
  intro tokens
  induction tokens with
  | nil => intro out st; rfl
  | cons t ts ih =>
    intro out st
    cases hc : converterToken t with
    | true =>
      rw [List.filter_cons_of_pos hc, convertLoop, convertLoop]
      simp only [ih]
    | false =>
      rw [List.filter_cons_of_neg (by simp [hc]), ih]
      simp only [converterToken, outputToken, Bool.or_eq_false_iff] at hc
      obtain ⟨⟨⟨⟨⟨c1, c2⟩, c3⟩, c4⟩, c5⟩, c6⟩ := hc
      rw [convertLoop]
      simp only [c1, c2, c3, c4, c5, c6, Bool.or_self, Bool.false_eq_true, if_false]

/-- C18 (conversion only reorders and filters): under every table of the
program, a sequence that `shuntingYard` returns is a permutation of the input
tokens that are numbers, constants, function names or operators; its numbers and
constants are those of the input in the same order; the parentheses apart, the
other tokens have no effect on the result; `$`, `foo` and a lone `.` are such
tokens, and the pipeline gives 2 for `2$` and for `2 foo`. -/
theorem C18_conversion_reorders_and_filters (prec : Table) (tokens rpn : List String)
    (hprec : tableOK prec = true) (h : (shuntingYard prec tokens).1 = .ok rpn) :
    rpn.Perm (tokens.filter outputToken) ∧
    rpn.filter operandToken = tokens.filter operandToken ∧
    (shuntingYard prec (tokens.filter converterToken)).1 = .ok rpn ∧
    (converterToken "$" = false ∧ converterToken "foo" = false ∧ converterToken "." = false ∧
      tokenize "2$" = ["2", "$"] ∧ tokenize "2 foo" = ["2", "foo"]) ∧
    (Solve exactOps precedence "2$").1 = .ok (.int 2) ∧
    (Solve exactOps precedence "2 foo").1 = .ok (.int 2) := by
  have hfilter : (shuntingYard prec (tokens.filter converterToken)).1 = .ok rpn := by
    rw [(shuntingYard_eq hprec _).1, convert_eq, convertLoop_filter, ← convert_eq,
      ← (shuntingYard_eq hprec _).1, h]
  rw [(shuntingYard_eq hprec _).1, convert_eq] at h
  refine ⟨?_, ?_, hfilter, by decide, by decide, by decide⟩
  all_goals
    cases hc : convertLoop tokens [] [] with
    | error err => rw [hc] at h; simp [drainResult] at h
    | ok r =>
      obtain ⟨out2, st2⟩ := r
      rw [hc] at h
      simp only [drainResult] at h
      obtain ⟨d1, d2⟩ := drainStack_balanced st2 out2
      by_cases hz : st2.count "(" = 0
      · rw [d1 hz] at h
        simp only [Except.ok.injEq] at h
        have hno : ∀ x ∈ st2, notOpen x = true := by
          intro x hx
          simp only [notOpen, bne_iff_ne, ne_eq]
          rintro rfl
          exact absurd hx (List.count_eq_zero.1 hz)
        first
        | rw [List.perm_iff_count]
          intro a
          have := convertLoop_count a tokens [] [] hc
          rw [filter_notOpen_of_all hno, h] at this
          simpa using this
        | obtain ⟨i1, i2⟩ := convertLoop_operands tokens [] [] hc (by simp)
          rw [← h, List.filter_append, i1, filter_operand_nil i2]
          simp
      · rw [d2 hz] at h
        exact absurd h (by simp)

/-- C18 at the initial table and the tokens of `foo (1 + sin(2)) . $`. -/
theorem C18_conversion_reorders_and_filters_witness :
    (tableOK precedence = true ∧
      (shuntingYard precedence ["foo", "(", "1", "+", "sin", "(", "2", ")", ")", ".", "$"]).1 =
        .ok ["1", "2", "sin", "+"]) ∧
    ["1", "2", "sin", "+"].Perm
      (["foo", "(", "1", "+", "sin", "(", "2", ")", ")", ".", "$"].filter outputToken) :=
  ⟨by decide,
    (C18_conversion_reorders_and_filters precedence
      ["foo", "(", "1", "+", "sin", "(", "2", ")", ")", ".", "$"] ["1", "2", "sin", "+"]
      (by decide) (by decide)).1⟩

theorem overflowBound_eq : overflowBound = 2 ^ 1024 - 2 ^ 970 := by
  norm_num [overflowBound]

theorem calculationStep_error {V : Type} (D : DoubleOps V) {t : String} {vs : List V}
    {err : Err} (h : calculationStep D precedence t vs = .error err) :
    err = .stodFailed ∨ err = .invalidExpression ∨ err = .divisionByZero ∨
      err = .unknownToken t := by
  cases h1 : isNumber t with
  | true =>
    simp only [calculationStep, h1, if_true] at h
    cases hv : D.stod t with
    | none => rw [hv] at h; simp at h; exact Or.inl h.symm
    | some v => simp [hv] at h
  | false =>
    cases h2 : t == "pi" with
    | true => simp [calculationStep, h1, h2] at h
    | false =>
      cases h3 : t == "e" with
      | true => simp [calculationStep, h1, h2, h3] at h
      | false =>
        cases h4 : isFunction t with
        | true =>
          simp only [calculationStep, h1, h2, h3, h4, if_true, Bool.false_eq_true,
            if_false] at h
          cases vs with
          | nil => simp at h; exact Or.inr (Or.inl h.symm)
          | cons val vs2 =>
            simp only at h
            split_ifs at h
        | false =>
          cases h5 : isOperator precedence t with
          | true =>
            simp only [calculationStep, h1, h2, h3, h4, h5, if_true, Bool.false_eq_true,
              if_false] at h
            cases h6 : t == "#" with
            | true =>
              simp only [h6, if_true] at h
              cases vs with
              | nil => simp at h; exact Or.inr (Or.inl h.symm)
              | cons val vs2 => simp at h
            | false =>
              simp only [h6, Bool.false_eq_true, if_false] at h
              cases vs with
              | nil => simp at h; exact Or.inr (Or.inl h.symm)
              | cons val2 vs2 =>
                cases vs2 with
                | nil => simp at h; exact Or.inr (Or.inl h.symm)
                | cons val1 vs3 =>
                  simp only at h
                  split_ifs at h
                  simp only [Except.error.injEq] at h
                  exact Or.inr (Or.inr (Or.inl h.symm))
          | false =>
            simp [calculationStep, h1, h2, h3, h4, h5] at h
            exact Or.inr (Or.inr (Or.inr h.symm))

theorem calculationLoop_error {V : Type} (D : DoubleOps V) :
    ∀ (rpn : List String) (vs : List V) {err : Err},
      calculationLoop D precedence rpn vs = .error err →
      err = .stodFailed ∨ err = .invalidExpression ∨ err = .divisionByZero ∨
        ∃ t, err = .unknownToken t := by
  intro rpn
  induction rpn with
  | nil => intro vs err h; simp [calculationLoop] at h
  | cons t rpn ih =>
    intro vs err h
    simp only [calculationLoop] at h
    cases hs : calculationStep D precedence t vs with
    | error e2 =>
      rw [hs] at h
      simp only [Except.error.injEq] at h
      subst h
      rcases calculationStep_error D hs with h | h | h | h
      · exact Or.inl h
      · exact Or.inr (Or.inl h)
      · exact Or.inr (Or.inr (Or.inl h))
      · exact Or.inr (Or.inr (Or.inr ⟨t, h⟩))
    | ok vs2 =>
      rw [hs] at h
      exact ih vs2 h

/-- The result of the pipeline: a number, or one of four exceptions. -/
theorem evaluate_total {V : Type} (D : DoubleOps V) (expression : String) :
    (∃ v, evaluate D expression = .ok v) ∨
      evaluate D expression = .error .mismatchedParentheses ∨
      evaluate D expression = .error .invalidExpression ∨
      evaluate D expression = .error .divisionByZero ∨
      evaluate D expression = .error .stodFailed := by
  rw [evaluate]
  obtain ⟨b1, b2⟩ := convertLoop_balanced (tokenize expression) [] []
  cases hb : balancedFrom (List.count "(" ([] : List String)) (tokenize expression) with
  | false =>
    rw [convert_eq, b2 hb]
    exact Or.inr (Or.inl rfl)
  | true =>
    obtain ⟨rpn, hr⟩ := b1 hb
    have hout := convertLoop_outputs (tokenize expression) [] [] (by simp) (by simp) rpn hr
    rw [convert_eq, hr]
    simp only [calculation]
    cases hc : calculationLoop D precedence rpn [] with
    | error err =>
      simp only
      rcases calculationLoop_error D rpn [] hc with h | h | h | ⟨t, h⟩
      · subst h; exact Or.inr (Or.inr (Or.inr (Or.inr rfl)))
      · subst h; exact Or.inr (Or.inr (Or.inl rfl))
      · subst h; exact Or.inr (Or.inr (Or.inr (Or.inl rfl)))
      · subst h; exact absurd hc (calculationLoop_known D t rpn [] hout)
    | ok vs =>
      cases vs with
      | nil => exact Or.inr (Or.inr (Or.inl rfl))
      | cons v vs =>
        cases vs with
        | nil => exact Or.inl ⟨v, rfl⟩
        | cons w ws => exact Or.inr (Or.inr (Or.inl rfl))

set_option maxRecDepth 20000 in
/-- C12 fails at a literal of 310 digits `9`: it is one number token, its value
rounds to infinity, so that `std::stod` throws `std::out_of_range` (whose text
is "stod"), and the pipeline ends in that exception, which is none of
"Mismatched parentheses", "Invalid expression", "Division by zero" and "Unknown
token". -/
theorem C12_stod_throws_out_of_range :
    tokenize (String.mk (List.replicate 310 '9')) = [String.mk (List.replicate 310 '9')] ∧
    exactOps.stod (String.mk (List.replicate 310 '9')) = none ∧
    (Solve exactOps precedence (String.mk (List.replicate 310 '9'))).1 = .error .stodFailed ∧
    Err.what .stodFailed = "stod" := by
  decide

/-- An empty stack is not read: the loops of the converter end on it, and the
evaluator throws "Invalid expression" where a function or an operator finds too
few values. -/
theorem empty_stack_guarded {V : Type} (D : DoubleOps V) {prec : Table}
    (hprec : tableOK prec = true) :
    (∀ token out, popOperators token prec [] out = (.ok ([], out), prec) ∧
      popToParen [] out = none ∧ drainStack [] out = .ok out) ∧
    (∀ t, isFunction t = true ∨ isOperator precedence t = true →
      calculationStep D prec t [] = .error .invalidExpression) ∧
    (∀ t v, isOperator precedence t = true → (t == "#") = false →
      calculationStep D prec t [v] = .error .invalidExpression) := by
  have htab : ∀ (t : String) (vs : List V),
      calculationStep D prec t vs = calculationStep D precedence t vs := by
    intro t vs
    have := calculationLoop_table D hprec [t] vs
    simp only [calculationLoop] at this
    cases h1 : calculationStep D prec t vs <;> cases h2 : calculationStep D precedence t vs <;>
      rw [h1, h2] at this <;> simp_all
  refine ⟨fun token out => ⟨rfl, rfl, rfl⟩, ?_, ?_⟩
  · intro t ht
    rw [htab]
    rcases ht with ht | ht
    · rcases function_cases ht with h | h | h | h | h | h | h | h | h | h | h | h <;>
        subst h <;> rfl
    · rcases operator_cases ht with h | h | h | h | h | h <;> subst h <;> rfl
  · intro t v ht hne
    rw [htab]
    rcases operator_cases ht with h | h | h | h | h | h <;> subst h <;>
      first
      | rfl
      | exact absurd hne (by decide)

/-- C12 as amended: under every table of the program and for every input,
`tokenize` needs no more steps than the input has characters, `shuntingYard`
returns a sequence or throws "Mismatched parentheses" (`map::at` does not
throw), and the pipeline gives a number or throws one of "Mismatched
parentheses", "Invalid expression", "Division by zero" and the exception of
`std::stod`; "Unknown token" does not occur.  An empty stack is not read: the
loops of the converter end on it, and the evaluator throws "Invalid expression"
where a function or an operator finds too few values. -/
theorem C12_totality_of_the_pipeline {V : Type} (D : DoubleOps V) (prec : Table)
    (expression : String) (hprec : tableOK prec = true) :
    (∀ fuel, expression.data.length ≤ fuel →
      tokenizeLoop fuel expression.data true = tokenize expression) ∧
    ((∃ rpn, (shuntingYard prec (tokenize expression)).1 = .ok rpn) ∨
      (shuntingYard prec (tokenize expression)).1 = .error .mismatchedParentheses) ∧
    ((∃ v, (Solve D prec expression).1 = .ok v) ∨
      (Solve D prec expression).1 = .error .mismatchedParentheses ∨
      (Solve D prec expression).1 = .error .invalidExpression ∨
      (Solve D prec expression).1 = .error .divisionByZero ∨
      (Solve D prec expression).1 = .error .stodFailed) ∧
    ((∀ token out, popOperators token prec [] out = (.ok ([], out), prec) ∧
        popToParen [] out = none ∧ drainStack [] out = .ok out) ∧
      (∀ t, isFunction t = true ∨ isOperator precedence t = true →
        calculationStep D prec t [] = .error .invalidExpression) ∧
      (∀ t v, isOperator precedence t = true → (t == "#") = false →
        calculationStep D prec t [v] = .error .invalidExpression)) := by
  refine ⟨?_, ?_, ?_, empty_stack_guarded D hprec⟩
  · intro fuel hf
    exact tokenizeLoop_fuel _ _ _ true hf le_rfl
  · rw [(shuntingYard_eq hprec _).1, convert_eq]
    obtain ⟨b1, b2⟩ := convertLoop_balanced (tokenize expression) [] []
    cases hb : balancedFrom (List.count "(" ([] : List String)) (tokenize expression) with
    | false => exact Or.inr (b2 hb)
    | true => exact Or.inl (b1 hb)
  · rw [(Solve_eq D hprec _).1]
    exact evaluate_total D expression

/-- The amended C12 at the initial table, the exact reading and the input
`cos(1)/0`. -/
theorem C12_totality_of_the_pipeline_witness :
    tableOK precedence = true ∧
    ((∃ v, (Solve exactOps precedence "cos(1)/0").1 = .ok v) ∨
      (Solve exactOps precedence "cos(1)/0").1 = .error .mismatchedParentheses ∨
      (Solve exactOps precedence "cos(1)/0").1 = .error .invalidExpression ∨
      (Solve exactOps precedence "cos(1)/0").1 = .error .divisionByZero ∨
      (Solve exactOps precedence "cos(1)/0").1 = .error .stodFailed) :=
  ⟨by decide,
    (C12_totality_of_the_pipeline exactOps precedence "cos(1)/0" (by decide)).2.2.1⟩

end Calc
